import Mathlib

/-!
Verification of the `server` package of go-capnp: the local call-dispatch,
ordering and answer-resolution engine (`Server`, `Call`, the sorted method
table and the dispatch loop `handleCalls`/`handleCall`).

The development contains

* a functional embedding of the pure parts of the code: the sorted method
  table with its `sort.Search`-based lookup (`sortSearchGo`, `findMethod`),
  the `Call` record with `AllocResults` and `Ack`, `Send`/`Recv` method
  resolution, and `Brand`/`IsServer`;
* a small-step operational model of the dispatch system: the call queue,
  the `handleCalls` goroutine(s) with the post-cancellation drain loop,
  `Ack`'s hand-off of queue ownership, the `WaitGroup` counter and
  `Shutdown`.  Each transition mirrors one atomic piece of the Go code;
  the global trace records call starts, acknowledgments, body returns,
  argument release, answer-queue resolution and `Returner.Return`
  notifications.

Machine integers: the method identifiers are Go `uint64` values that the
code only ever compares (never arithmetic), so they are embedded as `Nat`.
The `mpsc.Queue` used by the server lives in a different package of the
repository (`exp/mpsc`, not part of the sources under verification); it is
modelled from the spec as an unbounded FIFO list with atomic `Recv`/
`TryRecv` (spec section 2: "an unbounded multi-producer, single-consumer
channel carrying pending invocations in submission order").  Likewise the
`answerQueue` resolution and `Returner` contract are recorded as abstract
trace events (`fulfill`/`reject`/`returned`) since their implementations
live outside the verified file.
-/

namespace GoCapnpServer

/-- Errors of the server package: `capnp.Unimplemented`, `exc.New`
(used by `newError`, which supplies the `"capnp server"` prefix string)
and `fmt.Errorf` wrapping (used by `sendArgsToStruct`). -/
inductive Err where
  | unimplemented (msg : String)
  | failed (who : String) (msg : String)
  | wrapped (what : String) (inner : Err)
deriving DecidableEq, Repr

/-- Model of `newError` (source line 729): `exc.New(exc.Failed, "capnp server", msg)`. -/
def newError (msg : String) : Err := Err.failed "capnp server" msg

/-- A Go `interface{}` value; `none` models `nil`. -/
abbrev GoAny := Option Nat

/-- `capnp.Method`'s identity part: `(InterfaceID, MethodID)`, both `uint64`
in Go.  The code only compares these values, so `Nat` is a faithful
embedding. -/
structure MethodIdent where
  interfaceID : Nat
  methodID : Nat
deriving DecidableEq, Repr

/-- A `server.Method` (source line 419): identity plus implementation.
The implementation closure is opaque to the lookup code and is embedded
as an identifier. -/
structure Method where
  ident : MethodIdent
  implId : Nat
deriving DecidableEq, Repr

/-- Ascending lexicographic order on method identities; this is the order
`sortedMethods.Less` (source line 714) sorts by. -/
def lexLe (a b : MethodIdent) : Prop :=
  a.interfaceID < b.interfaceID ∨
    (a.interfaceID = b.interfaceID ∧ a.methodID ≤ b.methodID)

instance (a b : MethodIdent) : Decidable (lexLe a b) := by
  unfold lexLe; infer_instance

/-- `sortedMethods.Less` (source line 714). -/
def methodLess (m1 m2 : Method) : Bool :=
  if m1.ident.interfaceID ≠ m2.ident.interfaceID then
    decide (m1.ident.interfaceID < m2.ident.interfaceID)
  else
    decide (m1.ident.methodID < m2.ident.methodID)

/-- Go's `sort.Search(n, f)` (binary search for the least index in `[i, j)`
satisfying `f`, assuming `f` is monotone): the loop
`for i < j { h := (i+j)/2; if !f(h) { i = h+1 } else { j = h } }; return i`. -/
def sortSearchGo (f : Nat → Bool) (i j : Nat) : Nat :=
  if h : i < j then
    if f ((i + j) / 2) then sortSearchGo f i ((i + j) / 2)
    else sortSearchGo f ((i + j) / 2 + 1) j
  else i
termination_by j - i
decreasing_by
  all_goals omega

/-- The search predicate used by `sortedMethods.find` (source lines 693-699):
`f(i)` is `sm[i].InterfaceID >= id.InterfaceID` lexicographically refined by
`MethodID`.  Out-of-range indices (which Go never probes) are mapped to
`true`, keeping the predicate monotone. -/
def findPred (sm : List Method) (id : MethodIdent) (i : Nat) : Bool :=
  match sm.get? i with
  | some m =>
    if m.ident.interfaceID ≠ id.interfaceID then
      decide (m.ident.interfaceID ≥ id.interfaceID)
    else
      decide (m.ident.methodID ≥ id.methodID)
  | none => true

/-- `sortedMethods.find` (source lines 692-708): binary search followed by
an exact identity check; `none` models the `nil` pointer. -/
def findMethod (sm : List Method) (id : MethodIdent) : Option Method :=
  match sm.get? (sortSearchGo (findPred sm id) 0 sm.length) with
  | some m =>
    if m.ident.interfaceID ≠ id.interfaceID ∨ m.ident.methodID ≠ id.methodID then
      none
    else some m
  | none => none

/-- Insertion of one method into a list already sorted by `methodLess`;
together with `sortMethods` this models the `sort.Sort(srv.methods)` call
in `New` (source line 523): the result is the input sorted ascending by
`(InterfaceID, MethodID)`. -/
def insertMethod (m : Method) : List Method → List Method
  | [] => [m]
  | x :: xs => if methodLess x m then x :: insertMethod m xs else m :: x :: xs

/-- The sort performed by `New` on the caller's method list. -/
def sortMethods (l : List Method) : List Method := l.foldr insertMethod []

/-! ## The `Call` record -/

/-- An opaque `capnp.Struct` value; `StructVal.zero` models the zero value
`capnp.Struct{}`. -/
structure StructVal where
  val : Nat
deriving DecidableEq, Repr

def StructVal.zero : StructVal := ⟨0⟩

/-- An opaque `capnp.ObjectSize`. -/
abbrev ObjectSize := Nat

/-- The mutable per-call state of `server.Call` relevant to `AllocResults`
and `Ack` (source lines 426-437): the `alloced` flag, the cached `results`
struct and the `acked` flag. -/
structure CallRec where
  alloced : Bool
  results : StructVal
  acked : Bool
deriving DecidableEq, Repr

/-- `Call.AllocResults` (source lines 448-456).  `ralloc` stands for the
call's `recv.Returner.AllocResults`; the function returns the pair Go
returns (`c.results`, `err`) together with the updated call record. -/
def CallRec.allocResults (ralloc : ObjectSize → StructVal × Option Err)
    (c : CallRec) (sz : ObjectSize) : (StructVal × Option Err) × CallRec :=
  if c.alloced then
    ((StructVal.zero, some (newError "multiple calls to AllocResults")), c)
  else
    let r := ralloc sz
    ((r.1, r.2), { c with alloced := true, results := r.1 })

/-- `Call.Ack` (source lines 468-474) as a state transformer; the returned
number counts the `go srv.handleCalls(...)` goroutines spawned by this
invocation (`1` on the first call, `0` afterwards). -/
def CallRec.ack (c : CallRec) : CallRec × Nat :=
  if c.acked then (c, 0) else ({ c with acked := true }, 1)

/-! ## The functional `Server` model: construction, lookup paths and brand

This covers the code paths of `New`, `Send`, `Recv`, `Brand` and
`IsServer` that are decided before (or without) any interaction with the
dispatch goroutine: method resolution, the "unimplemented" short-circuit,
argument placement and the brand round-trip. -/

/-- The dynamic value inside a `capnp.Brand`: either a `serverBrand`
wrapper (source line 657) produced by `Server.Brand`, or a value of any
other dynamic type (whose type is abstracted as a tag). -/
inductive BrandValue where
  | serverBrand (x : GoAny)
  | otherValue (tag : Nat) (v : GoAny)
deriving DecidableEq, Repr

/-- `capnp.Brand`. -/
structure Brand where
  value : BrandValue
deriving DecidableEq, Repr

/-- The parts of `server.Server` (source lines 483-504) visible to the
functional claims: the sorted method table, the brand passed to `New`,
whether a (non-nil) `Shutdowner` was supplied, the call queue contents
(identities of enqueued calls, in FIFO order) and the `WaitGroup`
counter. -/
structure ServerM where
  methods : List Method
  brand : GoAny
  hasShutdown : Bool
  queue : List MethodIdent
  wg : Nat
deriving DecidableEq, Repr

/-- `New(methods, brand, shutdown)` (source lines 511-526): copies and
sorts the method list; the queue starts empty and no call is outstanding. -/
def New (methods : List Method) (brand : GoAny) (hasShutdown : Bool) : ServerM :=
  { methods := sortMethods methods
    brand := brand
    hasShutdown := hasShutdown
    queue := []
    wg := 0 }

/-- `Server.Brand` (source lines 634-636): wraps the server's brand value
in a `serverBrand`. -/
def ServerM.brandFn (srv : ServerM) : Brand := ⟨BrandValue.serverBrand srv.brand⟩

/-- `IsServer` (source lines 652-655): the type assertion
`brand.Value.(serverBrand)`; on failure the zero `serverBrand` yields
`sb.x = nil`. -/
def IsServer (b : Brand) : GoAny × Bool :=
  match b.value with
  | BrandValue.serverBrand x => (x, true)
  | BrandValue.otherValue _ _ => (none, false)

/-- The inputs of `capnp.Send` seen by `Server.Send`: the method identity,
whether a `PlaceArgs` callback is present, and the error that callback
would return (`sendArgsToStruct`, source lines 661-675). -/
structure SendReq where
  method : MethodIdent
  hasPlaceArgs : Bool
  placeArgsErr : Option Err
deriving DecidableEq, Repr

/-- `sendArgsToStruct` (source lines 661-675): no `PlaceArgs` gives the
zero struct; a failing `PlaceArgs` is wrapped by `fmt.Errorf("place args: %v", err)`. -/
def sendArgsToStruct (s : SendReq) : Except Err StructVal :=
  if s.hasPlaceArgs then
    match s.placeArgsErr with
    | some e => Except.error (Err.wrapped "place args" e)
    | none => Except.ok ⟨1⟩
  else Except.ok StructVal.zero

/-- The answer value returned by `Server.Send`: either
`capnp.ErrorAnswer(method, err)` (an already-rejected answer) or the
pipelining handle of a started call (`answerQueue`), identified by its
position in the enqueue order. -/
inductive AnswerKind where
  | errorAnswer (m : MethodIdent) (e : Err)
  | pipelineAnswer (aq : Nat)
deriving DecidableEq, Repr

/-- `Server.Send` (source lines 529-550).  The returned `Bool` is true iff
the returned release function is the no-op `func() {}`.  On a method-table
miss or a `PlaceArgs` failure the server state is untouched; otherwise
`start` (source lines 619-631) increments the counter and enqueues. -/
def ServerM.send (srv : ServerM) (s : SendReq) : ServerM × AnswerKind × Bool :=
  match findMethod srv.methods s.method with
  | none => (srv, AnswerKind.errorAnswer s.method (Err.unimplemented "unimplemented"), true)
  | some mm =>
    match sendArgsToStruct s with
    | Except.error e => (srv, AnswerKind.errorAnswer mm.ident e, true)
    | Except.ok _ =>
      ({ srv with wg := srv.wg + 1, queue := srv.queue ++ [mm.ident] },
        AnswerKind.pipelineAnswer srv.queue.length, false)

/-- The inputs of `capnp.Recv` seen by `Server.Recv`: the method identity. -/
structure RecvReq where
  method : MethodIdent
deriving DecidableEq, Repr

/-- `Server.Recv` (source lines 553-560): on a miss it calls
`r.Reject(unimplemented)` (second component) and returns `nil` (first
component `none`); on a hit, `start` enqueues and the `answerQueue` is the
pipeline caller. -/
def ServerM.recv (srv : ServerM) (r : RecvReq) : ServerM × (Option Nat × Option Err) :=
  match findMethod srv.methods r.method with
  | none => (srv, (none, some (Err.unimplemented "unimplemented")))
  | some mm =>
    ({ srv with wg := srv.wg + 1, queue := srv.queue ++ [mm.ident] },
      (some srv.queue.length, none))

/-! ## The operational dispatch model

A small-step interleaving semantics of the dispatch system of one
`Server`: the producers (`start`, source lines 619-631), the
`handleCalls` goroutines (source lines 562-603) with their steady loop
and post-cancellation drain loop, `handleCall` (source lines 605-617),
`Call.Ack`'s goroutine hand-off (source line 473) and `Shutdown`
(source lines 641-647).

Calls are identified by the order in which they are enqueued
(`0, 1, 2, ...`).  Method bodies are arbitrary: the scheduler decides,
per call, whether the body calls `Ack` (label `bodyAck`) and which error
it returns (carried by the label `bodyRet`); the model therefore
quantifies over all body behaviours.  A body's return and the completion
sequence of `handleCall` that follows it (release arguments, resolve the
answer queue, notify the `Returner`, `wg.Done`) run in the body's own
goroutine with no intervening suspension point touching the shared
structures, so they form one transition emitting the whole per-call
completion block. -/

/-- Observable events of one dispatch history.  `start a c` records that
call `a`'s method body was invoked (`c` = the execution context passed to
the body was already canceled); `acked a` that its body called `Ack` for
the first time; the remaining call events mirror `handleCall`'s
completion: the body returning error `e`, `recv.ReleaseArgs()`,
`aq.fulfill(results)` / `aq.reject(err)` and `recv.Returner.Return(err)`.
`hookRun` records the `Shutdowner.Shutdown()` invocation. -/
inductive Event where
  | start (a : Nat) (ctxCanceled : Bool)
  | acked (a : Nat)
  | bodyReturned (a : Nat) (e : Option Err)
  | releaseArgs (a : Nat)
  | fulfill (a : Nat)
  | reject (a : Nat) (e : Err)
  | returned (a : Nat) (e : Option Err)
  | hookRun
deriving DecidableEq, Repr

/-- The call an event belongs to, if any. -/
def Event.id? : Event → Option Nat
  | Event.start a _ => some a
  | Event.acked a => some a
  | Event.bodyReturned a _ => some a
  | Event.releaseArgs a => some a
  | Event.fulfill a => some a
  | Event.reject a _ => some a
  | Event.returned a _ => some a
  | Event.hookRun => none

/-- The phase of one `handleCalls` goroutine.  `atRecv` is the steady
loop blocked in `callQueue.Recv(ctx)` (source line 564); `draining` is
the drain loop (source lines 593-602); `running a ak dr` is `handleCall`
executing call `a`'s body (`ak`: the body has already called `Ack`;
`dr`: the call was dequeued by the drain loop); `retired` is a goroutine
that has returned. -/
inductive Phase where
  | atRecv
  | draining
  | running (a : Nat) (ak : Bool) (dr : Bool)
  | retired
deriving DecidableEq, Repr

/-- Whether a goroutine in this phase will still consume from the queue:
the steady loop, the drain loop, and a body that has not yet acknowledged
(its goroutine loops again after `handleCall`).  A goroutine whose call
has acknowledged retires after the body returns (source lines 587-591). -/
def Phase.isActive : Phase → Bool
  | Phase.atRecv => true
  | Phase.draining => true
  | Phase.running _ ak _ => !ak
  | Phase.retired => false

/-- Whether a goroutine in this phase currently holds a dequeued,
not-yet-completed call (the window between `wg.Add(1)`-ed dequeue and the
deferred `wg.Done()`). -/
def Phase.holdsCall : Phase → Bool
  | Phase.running _ _ _ => true
  | _ => false

/-- The call held by a goroutine in this phase, if any. -/
def Phase.callId? : Phase → Option Nat
  | Phase.running a _ _ => some a
  | _ => none

/-- Global state of the dispatch system.  `pending` counts producer
invocations of `start` that have not yet executed; `nextId` stamps
enqueue order; `queue` is the `mpsc.Queue` contents (FIFO); `canceled`
is the lifetime context (`handleCallsCtx`); `wantShutdown` says whether
the environment ever invokes `Shutdown`; `shutdownDone` that `Shutdown`
has returned; `hookRuns` counts `Shutdowner.Shutdown()` invocations;
`wg` is the `sync.WaitGroup` counter; `tasks` the `handleCalls`
goroutines ever spawned; `trace` the event history. -/
structure SState where
  pending : Nat
  nextId : Nat
  queue : List Nat
  canceled : Bool
  wantShutdown : Bool
  shutdownDone : Bool
  hookRuns : Nat
  wg : Nat
  hasHook : Bool
  tasks : List Phase
  trace : List Event
deriving DecidableEq, Repr

/-- The state right after `New` (source lines 511-526): one `handleCalls`
goroutine blocked at `Recv`, empty queue, counter zero, context live. -/
def initState (hasHook wantShutdown : Bool) (pending : Nat) : SState :=
  { pending := pending
    nextId := 0
    queue := []
    canceled := false
    wantShutdown := wantShutdown
    shutdownDone := false
    hookRuns := 0
    wg := 0
    hasHook := hasHook
    tasks := [Phase.atRecv]
    trace := [] }

/-- Scheduler labels: which atomic piece of code fires next.  Task-indexed
labels pick the `handleCalls` goroutine by its index in `tasks`. -/
inductive Label where
  | enqueue
  | cancel
  | finishShutdown
  | recvOk (t : Nat)
  | recvCancel (t : Nat)
  | bodyAck (t : Nat)
  | bodyRet (t : Nat) (e : Option Err)
  | drainOk (t : Nat)
  | drainDone (t : Nat)
deriving DecidableEq, Repr

/-- The events emitted by the tail of `handleCall(ctx, c)` once the body
has returned `e` (source lines 605-617): release the arguments, resolve
the answer queue (`fulfill` on `nil`, `reject` otherwise) and notify the
`Returner` with the same error; the deferred `wg.Done()` closes the
block. -/
def handleCallEvents (a : Nat) (e : Option Err) : List Event :=
  [Event.bodyReturned a e, Event.releaseArgs a] ++
    (match e with
     | none => [Event.fulfill a]
     | some er => [Event.reject a er]) ++
    [Event.returned a e]

/-! One transition of the dispatch system (`step` below, split into one
function per label); `none` when the label is not enabled.
Correspondence to the source:

* `enqueue`: a producer's `start` (lines 619-631): `wg.Add(1)` and
  `callQueue.Send` of a freshly stamped call.
* `cancel`: `srv.cancelHandleCalls()`, the first statement of `Shutdown`
  (line 642); only the environment's single `Shutdown` call fires it.
* `finishShutdown`: `srv.wg.Wait()` returning (which requires the counter
  to be zero) followed by the at-most-once hook invocation (lines 643-646).
* `recvOk t`: the steady loop's `callQueue.Recv(ctx)` yielding a call and
  `handleCall` invoking its body (lines 564, 584, 608).  When the context
  is already canceled the race between delivery and cancellation may
  resolve either way, so `recvOk` stays enabled alongside `recvCancel`.
* `recvCancel t`: `Recv(ctx)` returning the cancellation error, leaving
  the steady loop for the drain loop (lines 565-567, 593).
* `bodyAck t`: the running body's first `Call.Ack()` (lines 468-474):
  marks the call acknowledged and spawns a fresh `handleCalls` goroutine.
* `bodyRet t e`: the running body returning `e`, followed by
  `handleCall`'s completion block and `wg.Done()`; then the goroutine
  retires if the call acknowledged (lines 587-591), resumes the drain
  loop if the call was drained (lines 597-601), and otherwise loops back
  to `Recv`.
* `drainOk t`: the drain loop's successful `TryRecv` dequeuing a call and
  running its body under the canceled lifetime context (lines 597-601).
* `drainDone t`: `TryRecv` finding the queue empty: the drain loop (and
  its goroutine) returns (lines 598-600). -/
def stepEnqueue (s : SState) : Option SState :=
  match s.pending with
  | 0 => none
  | Nat.succ k =>
    some { s with pending := k, nextId := s.nextId + 1,
                  wg := s.wg + 1, queue := s.queue ++ [s.nextId] }

def stepCancel (s : SState) : Option SState :=
  if s.wantShutdown ∧ ¬ s.canceled then some { s with canceled := true } else none

def stepFinishShutdown (s : SState) : Option SState :=
  if s.canceled ∧ s.wg = 0 ∧ ¬ s.shutdownDone then
    some { s with shutdownDone := true,
                  hookRuns := s.hookRuns + (if s.hasHook then 1 else 0),
                  trace := s.trace ++ (if s.hasHook then [Event.hookRun] else []) }
  else none

def stepRecvOk (s : SState) (t : Nat) : Option SState :=
  match s.tasks.get? t with
  | some Phase.atRecv =>
    match s.queue with
    | [] => none
    | a :: rest =>
      some { s with queue := rest,
                    tasks := s.tasks.set t (Phase.running a false false),
                    trace := s.trace ++ [Event.start a s.canceled] }
  | _ => none

def stepRecvCancel (s : SState) (t : Nat) : Option SState :=
  match s.tasks.get? t with
  | some Phase.atRecv =>
    if s.canceled then some { s with tasks := s.tasks.set t Phase.draining } else none
  | _ => none

def stepBodyAck (s : SState) (t : Nat) : Option SState :=
  match s.tasks.get? t with
  | some (Phase.running a false dr) =>
    some { s with tasks := (s.tasks.set t (Phase.running a true dr)) ++ [Phase.atRecv],
                  trace := s.trace ++ [Event.acked a] }
  | _ => none

def stepBodyRet (s : SState) (t : Nat) (e : Option Err) : Option SState :=
  match s.tasks.get? t with
  | some (Phase.running a ak dr) =>
    some { s with
      tasks := s.tasks.set t
        (if dr then Phase.draining else if ak then Phase.retired else Phase.atRecv),
      wg := s.wg - 1,
      trace := s.trace ++ handleCallEvents a e }
  | _ => none

def stepDrainOk (s : SState) (t : Nat) : Option SState :=
  match s.tasks.get? t with
  | some Phase.draining =>
    match s.queue with
    | [] => none
    | a :: rest =>
      some { s with queue := rest,
                    tasks := s.tasks.set t (Phase.running a false true),
                    trace := s.trace ++ [Event.start a true] }
  | _ => none

def stepDrainDone (s : SState) (t : Nat) : Option SState :=
  match s.tasks.get? t with
  | some Phase.draining =>
    match s.queue with
    | [] => some { s with tasks := s.tasks.set t Phase.retired }
    | _ :: _ => none
  | _ => none

def step (s : SState) : Label → Option SState
  | Label.enqueue => stepEnqueue s
  | Label.cancel => stepCancel s
  | Label.finishShutdown => stepFinishShutdown s
  | Label.recvOk t => stepRecvOk s t
  | Label.recvCancel t => stepRecvCancel s t
  | Label.bodyAck t => stepBodyAck s t
  | Label.bodyRet t e => stepBodyRet s t e
  | Label.drainOk t => stepDrainOk s t
  | Label.drainDone t => stepDrainDone s t

/-- Run a list of scheduler labels. -/
def run (s : SState) : List Label → Option SState
  | [] => some s
  | l :: ls =>
    match step s l with
    | some s' => run s' ls
    | none => none

/-- Reachability under any schedule. -/
inductive Reaches : SState → SState → Prop
  | refl (s : SState) : Reaches s s
  | tail {s s' s'' : SState} (l : Label) :
      Reaches s s' → step s' l = some s'' → Reaches s s''

/-- A state in which no transition is enabled: the system as a whole can
make no further progress under any scheduling. -/
def Terminal (s : SState) : Prop := ∀ l, step s l = none

/-! ## Derived observations on traces -/

/-- The calls whose bodies have been invoked, in invocation order. -/
def startedIds (tr : List Event) : List Nat :=
  tr.filterMap (fun e =>
    match e with
    | Event.start a _ => some a
    | _ => none)

/-- The subsequence of the trace belonging to call `a`. -/
def callTrace (a : Nat) (tr : List Event) : List Event :=
  tr.filter (fun e => e.id? == some a)

/-- The complete event sequence of one fully handled call `a`: body start
(under a context canceled iff `f`), optional acknowledgment (`da`), then
`handleCall`'s completion block for the body's error `e`.  C3/C9's
content: the argument release comes exactly once, right after the body
returns and before resolution; the answer queue is fulfilled exactly when
`e = none` and otherwise rejected with `e` itself; the `Returner` is
notified exactly once with the same `e`. -/
def fullSeq (a : Nat) (f : Bool) (da : Bool) (e : Option Err) : List Event :=
  Event.start a f :: ((if da then [Event.acked a] else []) ++ handleCallEvents a e)

/-- Whether an event releases the dispatch gate for call `a`: its body
either acknowledged or returned. -/
def isReleaseOf (a : Nat) : Event → Bool
  | Event.acked b => b == a
  | Event.bodyReturned b _ => b == a
  | _ => false

/-- Position `k` of the trace holds a gate-releasing event of call `a`. -/
def ReleasedAt (tr : List Event) (k a : Nat) : Prop :=
  (match tr.get? k with
   | some ev => isReleaseOf a ev
   | none => false) = true

instance (tr : List Event) (k a : Nat) : Decidable (ReleasedAt tr k a) := by
  unfold ReleasedAt; infer_instance

/-- The dispatch gate (C2): whenever two bodies are started, the earlier
call had acknowledged or returned strictly between the two starts. -/
def GateProp (tr : List Event) : Prop :=
  ∀ i j a b fa fb, i < j →
    tr.get? i = some (Event.start a fa) →
    tr.get? j = some (Event.start b fb) →
    ∃ k, i < k ∧ k < j ∧ ReleasedAt tr k a

/-- Helper for the gate invariant: every started call has released the
gate at a later trace position, unless its body is currently running
without having acknowledged. -/
def AuxRel (s : SState) : Prop :=
  ∀ i a f, s.trace.get? i = some (Event.start a f) →
    (∃ k, i < k ∧ ReleasedAt s.trace k a) ∨
      (∃ t dr, s.tasks.get? t = some (Phase.running a false dr))

/-- The per-call shape invariant: where call `a` currently is determines
exactly which of its events are in the trace. -/
def ShapeAt (s : SState) (a : Nat) : Prop :=
  (s.nextId ≤ a → callTrace a s.trace = []) ∧
  (a ∈ s.queue → callTrace a s.trace = []) ∧
  (∀ t ak dr, s.tasks.get? t = some (Phase.running a ak dr) →
    ∃ f, callTrace a s.trace =
      Event.start a f :: (if ak then [Event.acked a] else [])) ∧
  (a < s.nextId → a ∉ s.queue →
    (∀ t ak dr, s.tasks.get? t ≠ some (Phase.running a ak dr)) →
    ∃ f da e, callTrace a s.trace = fullSeq a f da e)

/-- The master invariant of the dispatch system. -/
structure Inv (s : SState) : Prop where
  conserv : startedIds s.trace ++ s.queue = List.range s.nextId
  drainCanceled : s.canceled = false → ∀ t ph, s.tasks.get? t = some ph →
    ph ≠ Phase.draining ∧ ∀ a ak, ph ≠ Phase.running a ak true
  oneActive : s.canceled = false → s.tasks.countP Phase.isActive = 1
  runUnique : ∀ t t' a ak dr ak' dr',
    s.tasks.get? t = some (Phase.running a ak dr) →
    s.tasks.get? t' = some (Phase.running a ak' dr') → t = t'
  shape : ∀ a, ShapeAt s a
  wgCount : s.wg = s.queue.length + s.tasks.countP Phase.holdsCall
  hookOnce : s.hookRuns = if s.shutdownDone ∧ s.hasHook then 1 else 0
  auxRel : s.canceled = false → AuxRel s
  gate : s.canceled = false → GateProp s.trace

/-! ## Concrete scenarios used by witnesses and counterexamples -/

/-- A concrete sorted method table for the C4 witness. -/
def c4sm : List Method := [⟨⟨1, 1⟩, 10⟩, ⟨⟨1, 2⟩, 11⟩, ⟨⟨2, 0⟩, 12⟩]

/-- C1 counterexample schedule: `Shutdown` cancels, the lone goroutine
drains an empty queue and retires, and only then does a racing producer
enqueue its (already `wg.Add`-ed) call. -/
def c1CexLabels : List Label :=
  [Label.cancel, Label.recvCancel 0, Label.drainDone 0, Label.enqueue]

def c1CexS : SState :=
  (run (initState false true 1) c1CexLabels).getD (initState false true 1)

/-- C1 witness schedule: one call enqueued, dispatched and completed. -/
def c1WitLabels : List Label :=
  [Label.enqueue, Label.recvOk 0, Label.bodyRet 0 none]

def c1WitS : SState :=
  (run (initState false false 1) c1WitLabels).getD (initState false false 1)

/-- C2 counterexample schedule: after cancellation, the drain worker runs
call 0, whose body acknowledges — spawning a second worker that starts
call 1 — and then the first worker finishes call 0 and dequeues call 2
while call 1's body is still running unacknowledged. -/
def c2CexLabels : List Label :=
  [Label.enqueue, Label.enqueue, Label.enqueue, Label.cancel,
   Label.recvCancel 0, Label.drainOk 0, Label.bodyAck 0, Label.recvCancel 1,
   Label.drainOk 1, Label.bodyRet 0 none, Label.drainOk 0]

def c2CexS : SState :=
  (run (initState false true 3) c2CexLabels).getD (initState false true 3)

/-- C2 witness schedule: two calls handled back to back in steady state. -/
def c2WitLabels : List Label :=
  [Label.enqueue, Label.enqueue, Label.recvOk 0, Label.bodyRet 0 none,
   Label.recvOk 0]

def c2WitS : SState :=
  (run (initState false false 2) c2WitLabels).getD (initState false false 2)

/-- C3 witness schedule: one call whose body fails. -/
def c3WitLabels : List Label :=
  [Label.enqueue, Label.recvOk 0, Label.bodyRet 0 (some (newError "boom"))]

def c3WitS : SState :=
  (run (initState false false 1) c3WitLabels).getD (initState false false 1)

/-- C8 witness schedule: one call completed, then `Shutdown`. -/
def c8WitLabels : List Label :=
  [Label.enqueue, Label.recvOk 0, Label.bodyRet 0 none, Label.cancel]

def c8WitS : SState :=
  (run (initState true true 1) c8WitLabels).getD (initState true true 1)

def c8WitSf : SState := (step c8WitS Label.finishShutdown).getD c8WitS

/-- C9 witness schedule: one call that acknowledges mid-body. -/
def c9WitLabels : List Label :=
  [Label.enqueue, Label.recvOk 0, Label.bodyAck 0, Label.bodyRet 0 none]

def c9WitS : SState :=
  (run (initState false false 1) c9WitLabels).getD (initState false false 1)

/-! # Theorems

   ## Binary search (`sort.Search` / `sortedMethods.find`) -/

lemma sortSearchGo_spec (f : Nat → Bool)
    (mono : ∀ p q, p ≤ q → f p = true → f q = true) :
    ∀ n i j, j - i ≤ n → i ≤ j →
      (∀ k, k < i → f k = false) → (∀ k, j ≤ k → f k = true) →
      (∀ k, k < sortSearchGo f i j → f k = false) ∧
        (∀ k, sortSearchGo f i j ≤ k → f k = true) ∧
        i ≤ sortSearchGo f i j ∧ sortSearchGo f i j ≤ j := by
  intro n
  induction n with
  | zero =>
    intro i j hfuel hij hlow hhigh
    have hji : i = j := by omega
    subst hji
    rw [sortSearchGo]
    simp only [lt_irrefl, dite_false]
    exact ⟨hlow, hhigh, le_refl i, le_refl i⟩
  | succ n ih =>
    intro i j hfuel hij hlow hhigh
    rw [sortSearchGo]
    by_cases h : i < j
    · simp only [dif_pos h]
      have him : i ≤ (i + j) / 2 := by omega
      have hmj : (i + j) / 2 < j := by omega
      by_cases hf : f ((i + j) / 2) = true
      · simp only [hf, if_true]
        have := ih i ((i + j) / 2) (by omega) him hlow
          (fun k hk => mono ((i + j) / 2) k hk hf)
        exact ⟨this.1, this.2.1, this.2.2.1, le_trans this.2.2.2 (le_of_lt hmj)⟩
      · have hf' : f ((i + j) / 2) = false := by
          cases hfm : f ((i + j) / 2) with
          | true => exact absurd hfm hf
          | false => rfl
        simp only [hf', Bool.false_eq_true, if_false]
        have hlow' : ∀ k, k < (i + j) / 2 + 1 → f k = false := by
          intro k hk
          cases hfk : f k with
          | true =>
            exact absurd (mono k ((i + j) / 2) (by omega) hfk) (by simp [hf'])
          | false => rfl
        have := ih ((i + j) / 2 + 1) j (by omega) (by omega) hlow' hhigh
        exact ⟨this.1, this.2.1, by omega, this.2.2.2⟩
    · simp only [dif_neg h]
      have hji : i = j := by omega
      subst hji
      exact ⟨hlow, hhigh, le_refl i, le_refl i⟩

/-- The search predicate of `find` says exactly `id ≤ sm[i].ident` in the
lexicographic order, for in-range indices. -/
lemma findPred_iff (sm : List Method) (id : MethodIdent) (i : Nat)
    (m : Method) (hm : sm.get? i = some m) :
    findPred sm id i = true ↔ lexLe id m.ident := by
  unfold findPred
  simp only [hm]
  unfold lexLe
  by_cases hiid : m.ident.interfaceID = id.interfaceID
  · simp only [hiid, ne_eq, not_true_eq_false, if_false, decide_eq_true_eq,
      lt_self_iff_false, true_and, false_or]
  · simp only [ne_eq, hiid, not_false_eq_true, if_true, decide_eq_true_eq]
    constructor
    · intro hge
      left
      omega
    · intro hle
      rcases hle with hlt | ⟨heq, _⟩
      · omega
      · exact absurd heq.symm hiid

lemma methodIdent_eq_of_parts {a b : MethodIdent}
    (h1 : a.interfaceID = b.interfaceID) (h2 : a.methodID = b.methodID) :
    a = b := by
  cases a
  cases b
  simp_all

lemma lexLe_refl (a : MethodIdent) : lexLe a a := Or.inr ⟨rfl, le_refl _⟩

lemma lexLe_trans {a b c : MethodIdent} (h1 : lexLe a b) (h2 : lexLe b c) :
    lexLe a c := by
  unfold lexLe at *
  omega

lemma lexLe_antisymm {a b : MethodIdent} (h1 : lexLe a b) (h2 : lexLe b a) :
    a = b := by
  unfold lexLe at *
  cases a
  cases b
  simp_all only [MethodIdent.mk.injEq]
  omega

/-- Sortedness makes the search predicate monotone. -/
lemma findPred_mono (sm : List Method) (id : MethodIdent)
    (hs : List.Pairwise (fun m1 m2 => lexLe m1.ident m2.ident) sm) :
    ∀ p q, p ≤ q → findPred sm id p = true → findPred sm id q = true := by
  intro p q hpq hp
  rcases Nat.lt_or_ge q sm.length with hq | hq
  · have hp' : p < sm.length := lt_of_le_of_lt hpq hq
    obtain ⟨mp, hmp⟩ : ∃ mp, sm.get? p = some mp := by
      rw [List.get?_eq_get hp']; exact ⟨_, rfl⟩
    obtain ⟨mq, hmq⟩ : ∃ mq, sm.get? q = some mq := by
      rw [List.get?_eq_get hq]; exact ⟨_, rfl⟩
    rw [findPred_iff sm id q mq hmq]
    have h1 : lexLe id mp.ident := (findPred_iff sm id p mp hmp).mp hp
    rcases Nat.lt_or_ge p q with hpq' | hpq'
    · have hgp : sm.get ⟨p, hp'⟩ = mp := by
        have hg := List.get?_eq_get hp'
        rw [hg] at hmp
        exact Option.some.inj hmp
      have hgq : sm.get ⟨q, hq⟩ = mq := by
        have hg := List.get?_eq_get hq
        rw [hg] at hmq
        exact Option.some.inj hmq
      have hpair := List.pairwise_iff_get.mp hs ⟨p, hp'⟩ ⟨q, hq⟩ hpq'
      rw [hgp, hgq] at hpair
      exact lexLe_trans h1 hpair
    · have hpq2 : p = q := by omega
      subst hpq2
      rw [hmp] at hmq
      cases hmq
      exact h1
  · unfold findPred
    simp only [List.get?_len_le hq]

/-- C4: on a method list sorted ascending by `(InterfaceID, MethodID)`,
`sortedMethods.find` returns a method whose `InterfaceID` and `MethodID`
both equal the requested identity whenever such a method is in the list,
and returns `nil` (not-found, never an error) when no method in the list
has that identity. -/
theorem find_binary_search_correct (sm : List Method)
    (hs : List.Pairwise (fun m1 m2 => lexLe m1.ident m2.ident) sm)
    (id : MethodIdent) :
    ((∃ m ∈ sm, m.ident = id) →
      ∃ m, findMethod sm id = some m ∧ m.ident = id ∧ m ∈ sm) ∧
    ((∀ m ∈ sm, m.ident ≠ id) → findMethod sm id = none) := by
  have hhigh : ∀ k, sm.length ≤ k → findPred sm id k = true := by
    intro k hk
    unfold findPred
    simp only [List.get?_len_le hk]
  have hspec := sortSearchGo_spec (findPred sm id) (findPred_mono sm id hs)
    sm.length 0 sm.length (by omega) (Nat.zero_le _) (by omega) hhigh
  obtain ⟨hlowr, hhighr, -, hrlen⟩ := hspec
  set r := sortSearchGo (findPred sm id) 0 sm.length with hrdef
  rcases Nat.lt_or_ge r sm.length with hr | hr
  · obtain ⟨m₀, hm₀⟩ : ∃ m₀, sm.get? r = some m₀ := by
      rw [List.get?_eq_get hr]; exact ⟨_, rfl⟩
    have hm₀le : lexLe id m₀.ident :=
      (findPred_iff sm id r m₀ hm₀).mp (hhighr r (le_refl r))
    by_cases hid : m₀.ident = id
    · have hfind : findMethod sm id = some m₀ := by
        unfold findMethod
        rw [← hrdef, hm₀]
        simp [hid]
      constructor
      · intro _
        exact ⟨m₀, hfind, hid, List.get?_mem hm₀⟩
      · intro habs
        exact absurd hid (habs m₀ (List.get?_mem hm₀))
    · have hfind : findMethod sm id = none := by
        unfold findMethod
        rw [← hrdef, hm₀]
        have : m₀.ident.interfaceID ≠ id.interfaceID ∨
            m₀.ident.methodID ≠ id.methodID := by
          by_contra hcon
          push_neg at hcon
          exact hid (methodIdent_eq_of_parts hcon.1 hcon.2)
        simp [this]
      have habsent : ∀ m ∈ sm, m.ident ≠ id := by
        intro m hmem hmid
        obtain ⟨⟨k, hk⟩, hget⟩ := List.mem_iff_get.mp hmem
        have hfk : findPred sm id k = true := by
          rw [findPred_iff sm id k m (by rw [List.get?_eq_get hk, hget])]
          rw [hmid]
          exact lexLe_refl id
        have hkr : r ≤ k := by
          by_contra hc
          push_neg at hc
          rw [hlowr k hc] at hfk
          exact Bool.false_ne_true hfk
        rcases Nat.lt_or_ge r k with hrk | hrk
        · have hgr : sm.get ⟨r, hr⟩ = m₀ := by
            have hg := List.get?_eq_get hr
            rw [hg] at hm₀
            exact Option.some.inj hm₀
          have hpair := List.pairwise_iff_get.mp hs ⟨r, hr⟩ ⟨k, hk⟩ hrk
          rw [hgr, hget, hmid] at hpair
          exact hid (lexLe_antisymm hm₀le hpair).symm
        · have hkr2 : k = r := by omega
          have hgk : sm.get? k = some m := by rw [List.get?_eq_get hk, hget]
          rw [hkr2, hm₀] at hgk
          have hmm : m₀ = m := Option.some.inj hgk
          apply hid
          rw [hmm]
          exact hmid
      constructor
      · intro ⟨m, hmem, hmid⟩
        exact absurd hmid (habsent m hmem)
      · intro _
        exact hfind
  · have hfind : findMethod sm id = none := by
      unfold findMethod
      rw [← hrdef]
      simp only [List.get?_len_le hr]
    constructor
    · intro ⟨m, hmem, hmid⟩
      obtain ⟨⟨k, hk⟩, hget⟩ := List.mem_iff_get.mp hmem
      have hfk : findPred sm id k = true := by
        rw [findPred_iff sm id k m (by rw [List.get?_eq_get hk, hget])]
        rw [hmid]
        exact lexLe_refl id
      rw [hlowr k (by omega)] at hfk
      exact absurd hfk Bool.false_ne_true
    · intro _
      exact hfind

/-- Witness for C4 at a concrete sorted table: a present identity is
found, an absent identity yields `none`. -/
theorem find_binary_search_correct_witness :
    findMethod c4sm ⟨9, 9⟩ = none ∧
      ∃ m, findMethod c4sm ⟨1, 2⟩ = some m ∧ m.ident = ⟨1, 2⟩ ∧ m ∈ c4sm :=
  ⟨(find_binary_search_correct c4sm (by decide) ⟨9, 9⟩).2 (by decide),
   (find_binary_search_correct c4sm (by decide) ⟨1, 2⟩).1
     ⟨⟨⟨1, 2⟩, 11⟩, by decide, rfl⟩⟩

/-! ## Unimplemented methods (`Send`/`Recv` miss path) -/

/-- C5: when the requested identity is absent from the method table,
`Send` returns an already-rejected answer carrying the "unimplemented"
error with a no-op release function, `Recv` rejects with "unimplemented"
and returns `nil` — and in both cases the server state (in particular the
call queue and the outstanding-call counter) is completely untouched. -/
theorem unimplemented_no_enqueue (srv : ServerM) (id : MethodIdent)
    (hmiss : findMethod srv.methods id = none)
    (hasPA : Bool) (paErr : Option Err) :
    ServerM.send srv ⟨id, hasPA, paErr⟩ =
      (srv, AnswerKind.errorAnswer id (Err.unimplemented "unimplemented"), true) ∧
    ServerM.recv srv ⟨id⟩ =
      (srv, (none, some (Err.unimplemented "unimplemented"))) ∧
    (ServerM.send srv ⟨id, hasPA, paErr⟩).1.queue = srv.queue ∧
    (ServerM.send srv ⟨id, hasPA, paErr⟩).1.wg = srv.wg ∧
    (ServerM.recv srv ⟨id⟩).1.queue = srv.queue ∧
    (ServerM.recv srv ⟨id⟩).1.wg = srv.wg := by
  unfold ServerM.send ServerM.recv
  simp [hmiss]

/-- Witness for C5: the empty method table rejects every identity without
touching the queue. -/
theorem unimplemented_no_enqueue_witness :
    ServerM.send ⟨[], none, false, [], 0⟩ ⟨⟨3, 4⟩, true, none⟩ =
      (⟨[], none, false, [], 0⟩,
        AnswerKind.errorAnswer ⟨3, 4⟩ (Err.unimplemented "unimplemented"), true) ∧
    ServerM.recv ⟨[], none, false, [], 0⟩ ⟨⟨3, 4⟩⟩ =
      (⟨[], none, false, [], 0⟩,
        (none, some (Err.unimplemented "unimplemented"))) := by
  have h := unimplemented_no_enqueue ⟨[], none, false, [], 0⟩ ⟨3, 4⟩
    (by decide) true none
  exact ⟨h.1, h.2.1⟩

/-! ## `AllocResults` allocates at most once -/

/-- C6: the first `AllocResults` on a call allocates the results struct;
every later invocation fails with the distinct "multiple calls to
AllocResults" error and leaves the call record — in particular the first
allocation's `results` value — completely unchanged. -/
theorem allocResults_once (ralloc : ObjectSize → StructVal × Option Err)
    (c0 : CallRec) (sz sz' : ObjectSize) (h : c0.alloced = false) :
    (CallRec.allocResults ralloc c0 sz).2.alloced = true ∧
    (CallRec.allocResults ralloc c0 sz).2.results = (ralloc sz).1 ∧
    (CallRec.allocResults ralloc c0 sz).1 = ((ralloc sz).1, (ralloc sz).2) ∧
    (CallRec.allocResults ralloc (CallRec.allocResults ralloc c0 sz).2 sz').1.2 =
      some (newError "multiple calls to AllocResults") ∧
    (CallRec.allocResults ralloc (CallRec.allocResults ralloc c0 sz).2 sz').2 =
      (CallRec.allocResults ralloc c0 sz).2 := by
  unfold CallRec.allocResults
  simp [h]

/-- Witness for C6 at a concrete call record and allocator. -/
theorem allocResults_once_witness :
    (CallRec.allocResults (fun _ => (⟨7⟩, none)) ⟨false, ⟨0⟩, false⟩ 2).2.results = ⟨7⟩ ∧
    (CallRec.allocResults (fun _ => (⟨7⟩, none))
        (CallRec.allocResults (fun _ => (⟨7⟩, none)) ⟨false, ⟨0⟩, false⟩ 2).2 5).1.2 =
      some (newError "multiple calls to AllocResults") ∧
    (CallRec.allocResults (fun _ => (⟨7⟩, none))
        (CallRec.allocResults (fun _ => (⟨7⟩, none)) ⟨false, ⟨0⟩, false⟩ 2).2 5).2.results = ⟨7⟩ := by
  have h := allocResults_once (fun _ => (⟨7⟩, none)) ⟨false, ⟨0⟩, false⟩ 2 5 rfl
  refine ⟨h.2.1, h.2.2.2.1, ?_⟩
  rw [h.2.2.2.2]
  exact h.2.1

/-! ## Brand round-trip -/

/-- C10: `IsServer` recovers exactly the brand value passed to `New`
(`IsServer (srv.Brand()) = (brand, true)`), and on any brand whose inner
value is not a `serverBrand` it reports `ok = false` (with the zero
`serverBrand`'s `nil` payload). -/
theorem brand_isServer_roundtrip (methods : List Method) (brand : GoAny)
    (hook : Bool) :
    IsServer (ServerM.brandFn (New methods brand hook)) = (brand, true) ∧
    ∀ tag v, IsServer ⟨BrandValue.otherValue tag v⟩ = (none, false) := by
  constructor
  · rfl
  · intro tag v
    rfl

/-! ## Toolkit: lists, traces and step inversion -/

lemma lt_length_of_get?_some {α : Type} {l : List α} {n : Nat} {x : α}
    (h : l.get? n = some x) : n < l.length := by
  by_contra hc
  push_neg at hc
  rw [List.get?_len_le hc] at h
  cases h

lemma countP_set {α : Type} (l : List α) (t : Nat) (p p' : α) (f : α → Bool)
    (h : l.get? t = some p) :
    (l.set t p').countP f + (if f p then 1 else 0) =
      l.countP f + (if f p' then 1 else 0) := by
  induction l generalizing t with
  | nil => cases h
  | cons x xs ih =>
    cases t with
    | zero =>
      cases h
      simp only [List.set]
      rw [List.countP_cons, List.countP_cons]
      by_cases h1 : f p <;> by_cases h2 : f p' <;> simp [h1, h2] <;> omega
    | succ t' =>
      simp only [List.get?] at h
      simp only [List.set]
      rw [List.countP_cons, List.countP_cons]
      have := ih t' h
      omega

lemma countP_pos_of_get? {α : Type} (l : List α) (t : Nat) (p : α) (f : α → Bool)
    (h : l.get? t = some p) (hf : f p = true) : 1 ≤ l.countP f := by
  induction l generalizing t with
  | nil => cases h
  | cons x xs ih =>
    rw [List.countP_cons]
    cases t with
    | zero =>
      cases h
      simp [hf]
    | succ t' =>
      simp only [List.get?] at h
      have := ih t' h
      omega

lemma startedIds_append (tr es : List Event) :
    startedIds (tr ++ es) = startedIds tr ++ startedIds es := by
  unfold startedIds
  exact List.filterMap_append tr es _

lemma startedIds_start (a : Nat) (f : Bool) :
    startedIds [Event.start a f] = [a] := rfl

lemma startedIds_acked (a : Nat) : startedIds [Event.acked a] = [] := rfl

lemma startedIds_hookRun : startedIds [Event.hookRun] = [] := rfl

lemma startedIds_handleCallEvents (a : Nat) (e : Option Err) :
    startedIds (handleCallEvents a e) = [] := by
  cases e <;> rfl

lemma callTrace_append (a : Nat) (tr es : List Event) :
    callTrace a (tr ++ es) = callTrace a tr ++ callTrace a es := by
  unfold callTrace
  simp

lemma callTrace_start_self (a : Nat) (f : Bool) :
    callTrace a [Event.start a f] = [Event.start a f] := by
  simp [callTrace, Event.id?]

lemma callTrace_start_ne {a b : Nat} (h : b ≠ a) (f : Bool) :
    callTrace a [Event.start b f] = [] := by
  simp [callTrace, Event.id?, h]

lemma callTrace_acked_self (a : Nat) :
    callTrace a [Event.acked a] = [Event.acked a] := by
  simp [callTrace, Event.id?]

lemma callTrace_acked_ne {a b : Nat} (h : b ≠ a) :
    callTrace a [Event.acked b] = [] := by
  simp [callTrace, Event.id?, h]

lemma callTrace_hookRun (a : Nat) : callTrace a [Event.hookRun] = [] := by
  simp [callTrace, Event.id?]

lemma callTrace_hookBlock (a : Nat) (c : Bool) :
    callTrace a (if c then [Event.hookRun] else []) = [] := by
  cases c <;> simp [callTrace, Event.id?]

lemma callTrace_handleCallEvents_self (a : Nat) (e : Option Err) :
    callTrace a (handleCallEvents a e) = handleCallEvents a e := by
  cases e <;> simp [callTrace, handleCallEvents, Event.id?]

lemma callTrace_handleCallEvents_ne {a b : Nat} (h : b ≠ a) (e : Option Err) :
    callTrace a (handleCallEvents b e) = [] := by
  cases e <;> simp [callTrace, handleCallEvents, Event.id?, h]

lemma noStarts_def (es : List Event)
    (h : ∀ x ∈ es, ∀ a f, x ≠ Event.start a f) :
    ∀ j a f, es.get? j = some (Event.start a f) → False := by
  intro j a f hj
  exact h _ (List.get?_mem hj) a f rfl

lemma get?_append_some {α : Type} {l₁ l₂ : List α} {n : Nat} {x : α}
    (h : (l₁ ++ l₂).get? n = some x) :
    (n < l₁.length ∧ l₁.get? n = some x) ∨
      (l₁.length ≤ n ∧ l₂.get? (n - l₁.length) = some x) := by
  rcases Nat.lt_or_ge n l₁.length with hn | hn
  · left
    exact ⟨hn, by rw [← List.get?_append hn]; exact h⟩
  · right
    exact ⟨hn, by rw [← List.get?_append_right hn]; exact h⟩

lemma released_append (tr es : List Event) (k a : Nat)
    (h : ReleasedAt tr k a) : ReleasedAt (tr ++ es) k a := by
  unfold ReleasedAt at *
  cases hg : tr.get? k with
  | none => rw [hg] at h; simp at h
  | some ev =>
    have hk : k < tr.length := lt_length_of_get?_some hg
    rw [List.get?_append hk, hg]
    rw [hg] at h
    exact h

lemma released_at_end (tr : List Event) (es : List Event) (j a : Nat)
    (hj : es.get? j = some (Event.acked a) ∨
      ∃ e, es.get? j = some (Event.bodyReturned a e)) :
    ReleasedAt (tr ++ es) (tr.length + j) a := by
  unfold ReleasedAt
  rw [List.get?_append_right (by omega), Nat.add_sub_cancel_left]
  rcases hj with h | ⟨e, h⟩
  · rw [h]
    simp [isReleaseOf]
  · rw [h]
    simp [isReleaseOf]

lemma gateProp_append_noStarts {tr es : List Event} (h : GateProp tr)
    (hn : ∀ x ∈ es, ∀ a f, x ≠ Event.start a f) : GateProp (tr ++ es) := by
  intro i j a b fa fb hij hi hj
  rcases get?_append_some hi with ⟨hilen, hi'⟩ | ⟨_, hi'⟩
  · rcases get?_append_some hj with ⟨hjlen, hj'⟩ | ⟨_, hj'⟩
    · obtain ⟨k, hk1, hk2, hk3⟩ := h i j a b fa fb hij hi' hj'
      exact ⟨k, hk1, hk2, released_append tr es k a hk3⟩
    · exact absurd hj' (fun hc => noStarts_def es hn _ b fb hc)
  · exact absurd hi' (fun hc => noStarts_def es hn _ a fa hc)

lemma gateProp_append_start {tr : List Event} {b : Nat} {fb : Bool}
    (h : GateProp tr)
    (hrel : ∀ i a fa, tr.get? i = some (Event.start a fa) →
      ∃ k, i < k ∧ ReleasedAt tr k a) :
    GateProp (tr ++ [Event.start b fb]) := by
  intro i j a b' fa fb' hij hi hj
  rcases get?_append_some hi with ⟨hilen, hi'⟩ | ⟨hige, hi'⟩
  · rcases get?_append_some hj with ⟨hjlen, hj'⟩ | ⟨hjge, hj'⟩
    · obtain ⟨k, hk1, hk2, hk3⟩ := h i j a b' fa fb' hij hi' hj'
      exact ⟨k, hk1, hk2, released_append tr _ k a hk3⟩
    · obtain ⟨k, hk1, hk3⟩ := hrel i a fa hi'
      have hklen : k < tr.length := by
        unfold ReleasedAt at hk3
        cases hg : tr.get? k with
        | none => rw [hg] at hk3; simp at hk3
        | some ev => exact lt_length_of_get?_some hg
      refine ⟨k, hk1, by omega, released_append tr _ k a hk3⟩
  · have hjlen := lt_length_of_get?_some hj
    simp at hjlen
    omega

/-! ### Step inversion -/

lemma stepEnqueue_eq {s s' : SState} (h : stepEnqueue s = some s') :
    ∃ k, s.pending = k + 1 ∧
      s' = { s with pending := k, nextId := s.nextId + 1,
                    wg := s.wg + 1, queue := s.queue ++ [s.nextId] } := by
  unfold stepEnqueue at h
  cases hp : s.pending with
  | zero => rw [hp] at h; cases h
  | succ k =>
    rw [hp] at h
    simp only [Option.some.injEq] at h
    exact ⟨k, rfl, h.symm⟩

lemma stepCancel_eq {s s' : SState} (h : stepCancel s = some s') :
    s.wantShutdown = true ∧ s.canceled = false ∧ s' = { s with canceled := true } := by
  unfold stepCancel at h
  split at h
  · next hc =>
    simp only [Option.some.injEq] at h
    refine ⟨by simp [hc.1], by simp [hc.2], h.symm⟩
  · cases h

lemma stepFinishShutdown_eq {s s' : SState} (h : stepFinishShutdown s = some s') :
    s.canceled = true ∧ s.wg = 0 ∧ s.shutdownDone = false ∧
      s' = { s with shutdownDone := true,
                    hookRuns := s.hookRuns + (if s.hasHook then 1 else 0),
                    trace := s.trace ++ (if s.hasHook then [Event.hookRun] else []) } := by
  unfold stepFinishShutdown at h
  split at h
  · next hc =>
    simp only [Option.some.injEq] at h
    refine ⟨by simp [hc.1], hc.2.1, by simp [hc.2.2], h.symm⟩
  · cases h

lemma stepRecvOk_eq {s s' : SState} {t : Nat} (h : stepRecvOk s t = some s') :
    ∃ a rest, s.tasks.get? t = some Phase.atRecv ∧ s.queue = a :: rest ∧
      s' = { s with queue := rest,
                    tasks := s.tasks.set t (Phase.running a false false),
                    trace := s.trace ++ [Event.start a s.canceled] } := by
  unfold stepRecvOk at h
  cases hg : s.tasks.get? t with
  | none => rw [hg] at h; cases h
  | some ph =>
    rw [hg] at h
    cases ph with
    | atRecv =>
      cases hq : s.queue with
      | nil => rw [hq] at h; cases h
      | cons a rest =>
        rw [hq] at h
        simp only [Option.some.injEq] at h
        exact ⟨a, rest, rfl, rfl, h.symm⟩
    | draining => cases h
    | running a ak dr => cases h
    | retired => cases h

lemma stepRecvCancel_eq {s s' : SState} {t : Nat} (h : stepRecvCancel s t = some s') :
    s.tasks.get? t = some Phase.atRecv ∧ s.canceled = true ∧
      s' = { s with tasks := s.tasks.set t Phase.draining } := by
  unfold stepRecvCancel at h
  cases hg : s.tasks.get? t with
  | none => rw [hg] at h; cases h
  | some ph =>
    rw [hg] at h
    cases ph with
    | atRecv =>
      by_cases hc : s.canceled = true
      · rw [if_pos hc] at h
        simp only [Option.some.injEq] at h
        exact ⟨rfl, hc, h.symm⟩
      · rw [if_neg hc] at h
        cases h
    | draining => cases h
    | running a ak dr => cases h
    | retired => cases h

lemma stepBodyAck_eq {s s' : SState} {t : Nat} (h : stepBodyAck s t = some s') :
    ∃ a dr, s.tasks.get? t = some (Phase.running a false dr) ∧
      s' = { s with tasks := (s.tasks.set t (Phase.running a true dr)) ++ [Phase.atRecv],
                    trace := s.trace ++ [Event.acked a] } := by
  unfold stepBodyAck at h
  cases hg : s.tasks.get? t with
  | none => rw [hg] at h; cases h
  | some ph =>
    rw [hg] at h
    cases ph with
    | atRecv => cases h
    | draining => cases h
    | running a ak dr =>
      cases ak with
      | false =>
        simp only [Option.some.injEq] at h
        exact ⟨a, dr, rfl, h.symm⟩
      | true => cases h
    | retired => cases h

lemma stepBodyRet_eq {s s' : SState} {t : Nat} {e : Option Err}
    (h : stepBodyRet s t e = some s') :
    ∃ a ak dr, s.tasks.get? t = some (Phase.running a ak dr) ∧
      s' = { s with
        tasks := s.tasks.set t
          (if dr then Phase.draining else if ak then Phase.retired else Phase.atRecv),
        wg := s.wg - 1,
        trace := s.trace ++ handleCallEvents a e } := by
  unfold stepBodyRet at h
  cases hg : s.tasks.get? t with
  | none => rw [hg] at h; cases h
  | some ph =>
    rw [hg] at h
    cases ph with
    | atRecv => cases h
    | draining => cases h
    | running a ak dr =>
      simp only [Option.some.injEq] at h
      exact ⟨a, ak, dr, rfl, h.symm⟩
    | retired => cases h

lemma stepDrainOk_eq {s s' : SState} {t : Nat} (h : stepDrainOk s t = some s') :
    ∃ a rest, s.tasks.get? t = some Phase.draining ∧ s.queue = a :: rest ∧
      s' = { s with queue := rest,
                    tasks := s.tasks.set t (Phase.running a false true),
                    trace := s.trace ++ [Event.start a true] } := by
  unfold stepDrainOk at h
  cases hg : s.tasks.get? t with
  | none => rw [hg] at h; cases h
  | some ph =>
    rw [hg] at h
    cases ph with
    | atRecv => cases h
    | draining =>
      cases hq : s.queue with
      | nil => rw [hq] at h; cases h
      | cons a rest =>
        rw [hq] at h
        simp only [Option.some.injEq] at h
        exact ⟨a, rest, rfl, rfl, h.symm⟩
    | running a ak dr => cases h
    | retired => cases h

lemma stepDrainDone_eq {s s' : SState} {t : Nat} (h : stepDrainDone s t = some s') :
    s.tasks.get? t = some Phase.draining ∧ s.queue = [] ∧
      s' = { s with tasks := s.tasks.set t Phase.retired } := by
  unfold stepDrainDone at h
  cases hg : s.tasks.get? t with
  | none => rw [hg] at h; cases h
  | some ph =>
    rw [hg] at h
    cases ph with
    | atRecv => cases h
    | draining =>
      cases hq : s.queue with
      | nil =>
        rw [hq] at h
        simp only [Option.some.injEq] at h
        exact ⟨rfl, rfl, h.symm⟩
      | cons a rest => rw [hq] at h; cases h
    | running a ak dr => cases h
    | retired => cases h

/-! ### More toolkit: counting and indexed access -/

lemma get?_set_cases {α : Type} {l : List α} {n t : Nat} {a x : α}
    (h : (l.set n a).get? t = some x) :
    (t = n ∧ x = a) ∨ (t ≠ n ∧ l.get? t = some x) := by
  by_cases htn : t = n
  · subst htn
    have hlt : t < l.length := by
      have := lt_length_of_get?_some h
      simpa using this
    rw [List.get?_set_eq_of_lt a hlt] at h
    exact Or.inl ⟨rfl, (Option.some.inj h).symm⟩
  · right
    refine ⟨htn, ?_⟩
    rw [List.get?_set_ne a l (fun hc => htn hc.symm)] at h
    exact h

lemma get?_append_singleton_cases {α : Type} {l : List α} {q : α} {t : Nat} {x : α}
    (h : (l ++ [q]).get? t = some x) :
    (t < l.length ∧ l.get? t = some x) ∨ (t = l.length ∧ x = q) := by
  rcases get?_append_some h with ⟨hlt, h'⟩ | ⟨hge, h'⟩
  · exact Or.inl ⟨hlt, h'⟩
  · right
    have hlen := lt_length_of_get?_some h
    simp only [List.length_append, List.length_singleton] at hlen
    have ht : t = l.length := by omega
    refine ⟨ht, ?_⟩
    rw [ht, Nat.sub_self] at h'
    exact (Option.some.inj h').symm

lemma countP_two {α : Type} (l : List α) {t t' : Nat} {p p' : α} (f : α → Bool)
    (ht : l.get? t = some p) (ht' : l.get? t' = some p') (hne : t ≠ t')
    (hf : f p = true) (hf' : f p' = true) : 2 ≤ l.countP f := by
  induction l generalizing t t' with
  | nil => cases ht
  | cons x xs ih =>
    rw [List.countP_cons]
    cases t with
    | zero =>
      cases ht
      cases t' with
      | zero => exact absurd rfl hne
      | succ u =>
        simp only [List.get?] at ht'
        have := countP_pos_of_get? xs u p' f ht' hf'
        have hone : (if f p = true then 1 else 0) = 1 := by simp [hf]
        omega
    | succ u =>
      cases t' with
      | zero =>
        cases ht'
        simp only [List.get?] at ht
        have := countP_pos_of_get? xs u p f ht hf
        have hone : (if f p' = true then 1 else 0) = 1 := by simp [hf']
        omega
      | succ u' =>
        simp only [List.get?] at ht ht'
        have := ih ht ht' (fun hc => hne (by omega))
        omega

lemma mem_startedIds_of_start {a : Nat} {f : Bool} {tr : List Event}
    (h : Event.start a f ∈ tr) : a ∈ startedIds tr := by
  unfold startedIds
  exact List.mem_filterMap.mpr ⟨Event.start a f, h, rfl⟩

lemma head_mem_of_callTrace_cons {a : Nat} {tr : List Event} {ev : Event}
    {rest : List Event} (h : callTrace a tr = ev :: rest) : ev ∈ tr := by
  have : ev ∈ callTrace a tr := by rw [h]; exact List.mem_cons_self ev rest
  exact List.mem_of_mem_filter this

lemma start_mem_startedIds_of_shape {a : Nat} {tr : List Event} {f : Bool}
    {rest : List Event} (h : callTrace a tr = Event.start a f :: rest) :
    a ∈ startedIds tr :=
  mem_startedIds_of_start (head_mem_of_callTrace_cons h)

lemma noStarts_handleCallEvents (a : Nat) (e : Option Err) :
    ∀ x ∈ handleCallEvents a e, ∀ b f, x ≠ Event.start b f := by
  cases e <;> simp [handleCallEvents]

lemma noStarts_acked (a : Nat) :
    ∀ x ∈ [Event.acked a], ∀ b f, x ≠ Event.start b f := by
  simp

lemma noStarts_hookBlock (c : Bool) :
    ∀ x ∈ (if c then [Event.hookRun] else []), ∀ b f, x ≠ Event.start b f := by
  cases c <;> simp

lemma handleCallEvents_get0 (a : Nat) (e : Option Err) :
    (handleCallEvents a e).get? 0 = some (Event.bodyReturned a e) := by
  cases e <;> rfl

/-! ### Facts extracted from the invariant -/

lemma inv_queue_lt {s : SState} (hInv : Inv s) {a : Nat} (ha : a ∈ s.queue) :
    a < s.nextId := by
  have : a ∈ List.range s.nextId := by
    rw [← hInv.conserv]
    exact List.mem_append_right _ ha
  exact List.mem_range.mp this

lemma inv_started_lt {s : SState} (hInv : Inv s) {a : Nat}
    (ha : a ∈ startedIds s.trace) : a < s.nextId := by
  have : a ∈ List.range s.nextId := by
    rw [← hInv.conserv]
    exact List.mem_append_left _ ha
  exact List.mem_range.mp this

lemma inv_queue_nodup {s : SState} (hInv : Inv s) : s.queue.Nodup := by
  have h : (startedIds s.trace ++ s.queue).Nodup := by
    rw [hInv.conserv]
    exact List.nodup_range s.nextId
  exact (List.nodup_append.mp h).2.1

lemma inv_queue_not_started {s : SState} (hInv : Inv s) {a : Nat}
    (ha : a ∈ s.queue) : a ∉ startedIds s.trace := by
  have h : (startedIds s.trace ++ s.queue).Nodup := by
    rw [hInv.conserv]
    exact List.nodup_range s.nextId
  have hdisj := (List.nodup_append.mp h).2.2
  intro hs
  exact hdisj hs ha

/-- A call currently being run by some goroutine has been started and is
not in the queue. -/
lemma inv_running_not_queued {s : SState} (hInv : Inv s) {t a : Nat}
    {ak dr : Bool} (hg : s.tasks.get? t = some (Phase.running a ak dr)) :
    a ∉ s.queue ∧ a < s.nextId := by
  obtain ⟨f, hct⟩ := (hInv.shape a).2.2.1 t ak dr hg
  have hstart : a ∈ startedIds s.trace := start_mem_startedIds_of_shape hct
  constructor
  · intro hq
    have h0 := (hInv.shape a).2.1 hq
    rw [h0] at hct
    cases hct
  · exact inv_started_lt hInv hstart

/-! ### Invariant preservation, label by label -/

lemma inv_stepEnqueue {s s' : SState} (hInv : Inv s)
    (h : stepEnqueue s = some s') : Inv s' := by
  obtain ⟨k, hp, hs'⟩ := stepEnqueue_eq h
  subst hs'
  refine ⟨?_, ?_, ?_, ?_, ?_, ?_, ?_, ?_, ?_⟩
  · show startedIds s.trace ++ (s.queue ++ [s.nextId]) = List.range (s.nextId + 1)
    rw [← List.append_assoc, hInv.conserv, List.range_succ]
  · exact hInv.drainCanceled
  · exact hInv.oneActive
  · exact hInv.runUnique
  · intro a
    refine ⟨?_, ?_, ?_, ?_⟩
    · intro hge
      dsimp only at hge
      exact (hInv.shape a).1 (by omega)
    · intro hq
      dsimp only at hq
      rcases List.mem_append.mp hq with hq | hq
      · exact (hInv.shape a).2.1 hq
      · have : a = s.nextId := by simpa using hq
        exact (hInv.shape a).1 (by omega)
    · exact (hInv.shape a).2.2.1
    · intro hlt hnq hnr
      dsimp only at hlt hnq
      by_cases ha : a = s.nextId
      · exact absurd (List.mem_append_right _ (by simp [ha])) hnq
      · exact (hInv.shape a).2.2.2 (by omega)
          (fun hc => hnq (List.mem_append_left _ hc)) hnr
  · show s.wg + 1 = (s.queue ++ [s.nextId]).length + s.tasks.countP Phase.holdsCall
    have := hInv.wgCount
    simp only [List.length_append, List.length_singleton]
    omega
  · exact hInv.hookOnce
  · exact hInv.auxRel
  · exact hInv.gate

lemma inv_stepCancel {s s' : SState} (hInv : Inv s)
    (h : stepCancel s = some s') : Inv s' := by
  obtain ⟨-, -, hs'⟩ := stepCancel_eq h
  subst hs'
  refine ⟨hInv.conserv, ?_, ?_, hInv.runUnique, hInv.shape, hInv.wgCount,
    hInv.hookOnce, ?_, ?_⟩
  · intro hc
    cases hc
  · intro hc
    cases hc
  · intro hc
    cases hc
  · intro hc
    cases hc

lemma startedIds_hookBlock (c : Bool) :
    startedIds (if c then [Event.hookRun] else []) = [] := by
  cases c <;> rfl

lemma inv_stepFinishShutdown {s s' : SState} (hInv : Inv s)
    (h : stepFinishShutdown s = some s') : Inv s' := by
  obtain ⟨hcanc, hwg, hdone, hs'⟩ := stepFinishShutdown_eq h
  subst hs'
  have hct : ∀ a, callTrace a (s.trace ++ (if s.hasHook then [Event.hookRun] else [])) =
      callTrace a s.trace := by
    intro a
    rw [callTrace_append, callTrace_hookBlock, List.append_nil]
  refine ⟨?_, ?_, ?_, hInv.runUnique, ?_, hInv.wgCount, ?_, ?_, ?_⟩
  · show startedIds (s.trace ++ (if s.hasHook then [Event.hookRun] else [])) ++ s.queue =
      List.range s.nextId
    rw [startedIds_append, startedIds_hookBlock, List.append_nil]
    exact hInv.conserv
  · intro hc
    dsimp only at hc
    rw [hcanc] at hc
    cases hc
  · intro hc
    dsimp only at hc
    rw [hcanc] at hc
    cases hc
  · intro a
    refine ⟨?_, ?_, ?_, ?_⟩
    · intro hge
      dsimp only at hge ⊢
      rw [hct a]
      exact (hInv.shape a).1 hge
    · intro hq
      dsimp only at hq ⊢
      rw [hct a]
      exact (hInv.shape a).2.1 hq
    · intro t ak dr hg
      dsimp only at hg ⊢
      rw [hct a]
      exact (hInv.shape a).2.2.1 t ak dr hg
    · intro hlt hnq hnr
      dsimp only at hlt hnq hnr ⊢
      rw [hct a]
      exact (hInv.shape a).2.2.2 hlt hnq hnr
  · have h0 := hInv.hookOnce
    simp only [hdone, Bool.false_eq_true, false_and, if_false] at h0
    dsimp only
    rw [h0]
    cases s.hasHook <;> simp
  · intro hc
    dsimp only at hc
    rw [hcanc] at hc
    cases hc
  · intro hc
    dsimp only at hc
    rw [hcanc] at hc
    cases hc

lemma inv_stepRecvCancel {s s' : SState} (hInv : Inv s)
    (h : stepRecvCancel s t = some s') : Inv s' := by
  obtain ⟨hgt, hcanc, hs'⟩ := stepRecvCancel_eq h
  subst hs'
  refine ⟨hInv.conserv, ?_, ?_, ?_, ?_, ?_, hInv.hookOnce, ?_, ?_⟩
  · intro hc
    dsimp only at hc
    rw [hcanc] at hc
    cases hc
  · intro hc
    dsimp only at hc
    rw [hcanc] at hc
    cases hc
  · intro t1 t2 b ak dr ak' dr' hg1 hg2
    dsimp only at hg1 hg2
    rcases get?_set_cases hg1 with ⟨-, hx⟩ | ⟨-, hold1⟩
    · cases hx
    · rcases get?_set_cases hg2 with ⟨-, hx⟩ | ⟨-, hold2⟩
      · cases hx
      · exact hInv.runUnique t1 t2 b ak dr ak' dr' hold1 hold2
  · intro b
    refine ⟨(hInv.shape b).1, (hInv.shape b).2.1, ?_, ?_⟩
    · intro t' ak dr hg'
      dsimp only at hg'
      rcases get?_set_cases hg' with ⟨-, hx⟩ | ⟨-, hold⟩
      · cases hx
      · exact (hInv.shape b).2.2.1 t' ak dr hold
    · intro hlt hnq hnr
      dsimp only at hlt hnq hnr
      apply (hInv.shape b).2.2.2 hlt hnq
      intro t' ak dr hold
      by_cases ht' : t' = t
      · subst ht'
        rw [hgt] at hold
        cases hold
      · exact hnr t' ak dr
          (by rw [List.get?_set_ne _ _ (fun hc => ht' hc.symm)]; exact hold)
  · show s.wg = s.queue.length + (s.tasks.set t Phase.draining).countP Phase.holdsCall
    have hc := countP_set s.tasks t Phase.atRecv Phase.draining Phase.holdsCall hgt
    simp only [Phase.holdsCall] at hc
    have := hInv.wgCount
    omega
  · intro hc
    dsimp only at hc
    rw [hcanc] at hc
    cases hc
  · intro hc
    dsimp only at hc
    rw [hcanc] at hc
    cases hc

lemma inv_stepDrainDone {s s' : SState} (hInv : Inv s)
    (h : stepDrainDone s t = some s') : Inv s' := by
  obtain ⟨hgt, hq, hs'⟩ := stepDrainDone_eq h
  subst hs'
  have hvac : ∀ {C : Prop},
      ({ s with tasks := s.tasks.set t Phase.retired } : SState).canceled = false → C := by
    intro C hc
    dsimp only at hc
    exact absurd rfl ((hInv.drainCanceled hc t Phase.draining hgt).1)
  refine ⟨hInv.conserv, fun hc => hvac hc, fun hc => hvac hc, ?_, ?_, ?_,
    hInv.hookOnce, fun hc => hvac hc, fun hc => hvac hc⟩
  · intro t1 t2 b ak dr ak' dr' hg1 hg2
    dsimp only at hg1 hg2
    rcases get?_set_cases hg1 with ⟨-, hx⟩ | ⟨-, hold1⟩
    · cases hx
    · rcases get?_set_cases hg2 with ⟨-, hx⟩ | ⟨-, hold2⟩
      · cases hx
      · exact hInv.runUnique t1 t2 b ak dr ak' dr' hold1 hold2
  · intro b
    refine ⟨(hInv.shape b).1, (hInv.shape b).2.1, ?_, ?_⟩
    · intro t' ak dr hg'
      dsimp only at hg'
      rcases get?_set_cases hg' with ⟨-, hx⟩ | ⟨-, hold⟩
      · cases hx
      · exact (hInv.shape b).2.2.1 t' ak dr hold
    · intro hlt hnq hnr
      dsimp only at hlt hnq hnr
      apply (hInv.shape b).2.2.2 hlt hnq
      intro t' ak dr hold
      by_cases ht' : t' = t
      · subst ht'
        rw [hgt] at hold
        cases hold
      · exact hnr t' ak dr
          (by rw [List.get?_set_ne _ _ (fun hc => ht' hc.symm)]; exact hold)
  · show s.wg = s.queue.length + (s.tasks.set t Phase.retired).countP Phase.holdsCall
    have hc := countP_set s.tasks t Phase.draining Phase.retired Phase.holdsCall hgt
    simp only [Phase.holdsCall] at hc
    have := hInv.wgCount
    omega

lemma inv_stepRecvOk {s s' : SState} {t : Nat} (hInv : Inv s)
    (h : stepRecvOk s t = some s') : Inv s' := by
  obtain ⟨a, rest, hgt, hq, hs'⟩ := stepRecvOk_eq h
  subst hs'
  have htlen : t < s.tasks.length := lt_length_of_get?_some hgt
  have ha_q : a ∈ s.queue := by rw [hq]; exact List.mem_cons_self a rest
  have hct_a : callTrace a s.trace = [] := (hInv.shape a).2.1 ha_q
  have ha_lt : a < s.nextId := inv_queue_lt hInv ha_q
  have ha_nrest : a ∉ rest := by
    have hnd := inv_queue_nodup hInv
    rw [hq] at hnd
    exact (List.nodup_cons.mp hnd).1
  have hnrun_a : ∀ t' ak dr, s.tasks.get? t' ≠ some (Phase.running a ak dr) := by
    intro t' ak dr hc
    obtain ⟨f, hf⟩ := (hInv.shape a).2.2.1 t' ak dr hc
    rw [hct_a] at hf
    cases hf
  refine ⟨?_, ?_, ?_, ?_, ?_, ?_, hInv.hookOnce, ?_, ?_⟩
  · show startedIds (s.trace ++ [Event.start a s.canceled]) ++ rest = List.range s.nextId
    rw [startedIds_append, startedIds_start, List.append_assoc,
      List.singleton_append, ← hq, hInv.conserv]
  · intro hc t' ph hg'
    dsimp only at hc hg'
    rcases get?_set_cases hg' with ⟨-, hx⟩ | ⟨-, hold⟩
    · subst hx
      exact ⟨by simp, by intro b ak; simp⟩
    · exact hInv.drainCanceled hc t' ph hold
  · intro hc
    dsimp only at hc ⊢
    have hcs := countP_set s.tasks t Phase.atRecv (Phase.running a false false)
      Phase.isActive hgt
    simp [Phase.isActive] at hcs
    have h1 := hInv.oneActive hc
    omega
  · intro t1 t2 b ak dr ak' dr' hg1 hg2
    dsimp only at hg1 hg2
    rcases get?_set_cases hg1 with ⟨ht1, hx1⟩ | ⟨-, hold1⟩
    · cases hx1
      rcases get?_set_cases hg2 with ⟨ht2, -⟩ | ⟨-, hold2⟩
      · rw [ht1, ht2]
      · exact absurd hold2 (hnrun_a t2 ak' dr')
    · rcases get?_set_cases hg2 with ⟨-, hx2⟩ | ⟨-, hold2⟩
      · cases hx2
        exact absurd hold1 (hnrun_a t1 ak dr)
      · exact hInv.runUnique t1 t2 b ak dr ak' dr' hold1 hold2
  · intro b
    by_cases hba : b = a
    · subst hba
      refine ⟨?_, ?_, ?_, ?_⟩
      · intro hge
        dsimp only at hge
        omega
      · intro hqm
        dsimp only at hqm
        exact absurd hqm ha_nrest
      · intro t' ak dr hg'
        dsimp only at hg' ⊢
        rcases get?_set_cases hg' with ⟨-, hx⟩ | ⟨-, hold⟩
        · cases hx
          refine ⟨s.canceled, ?_⟩
          rw [callTrace_append, hct_a, callTrace_start_self]
          simp
        · exact absurd hold (hnrun_a t' ak dr)
      · intro hlt hnq hnr
        dsimp only at hnr
        exact absurd (List.get?_set_eq_of_lt (Phase.running b false false) htlen)
          (hnr t false false)
    · have hctb : callTrace b (s.trace ++ [Event.start a s.canceled]) =
          callTrace b s.trace := by
        rw [callTrace_append, callTrace_start_ne (fun hc => hba hc.symm),
          List.append_nil]
      refine ⟨?_, ?_, ?_, ?_⟩
      · intro hge
        dsimp only at hge ⊢
        rw [hctb]
        exact (hInv.shape b).1 hge
      · intro hqm
        dsimp only at hqm ⊢
        rw [hctb]
        exact (hInv.shape b).2.1 (by rw [hq]; exact List.mem_cons_of_mem a hqm)
      · intro t' ak dr hg'
        dsimp only at hg' ⊢
        rcases get?_set_cases hg' with ⟨-, hx⟩ | ⟨-, hold⟩
        · cases hx
          exact absurd rfl hba
        · rw [hctb]
          exact (hInv.shape b).2.2.1 t' ak dr hold
      · intro hlt hnq hnr
        dsimp only at hlt hnq hnr ⊢
        rw [hctb]
        apply (hInv.shape b).2.2.2 hlt
        · intro hc
          rw [hq] at hc
          rcases List.mem_cons.mp hc with hc | hc
          · exact hba hc
          · exact hnq hc
        · intro t' ak dr hold
          by_cases ht' : t' = t
          · subst ht'
            rw [hgt] at hold
            cases hold
          · exact hnr t' ak dr
              (by rw [List.get?_set_ne _ _ (fun hc => ht' hc.symm)]; exact hold)
  · show s.wg = rest.length +
      (s.tasks.set t (Phase.running a false false)).countP Phase.holdsCall
    have hcs := countP_set s.tasks t Phase.atRecv (Phase.running a false false)
      Phase.holdsCall hgt
    simp [Phase.holdsCall] at hcs
    have hw := hInv.wgCount
    rw [hq] at hw
    simp only [List.length_cons] at hw
    omega
  · intro hc i b f hi
    dsimp only at hc hi ⊢
    rcases get?_append_some hi with ⟨hilen, hi'⟩ | ⟨hige, hi'⟩
    · rcases hInv.auxRel hc i b f hi' with ⟨k, hk1, hk3⟩ | ⟨t', dr, hg'⟩
      · exact Or.inl ⟨k, hk1, released_append _ _ _ _ hk3⟩
      · have ht' : t' ≠ t := by
          intro hc'
          rw [hc', hgt] at hg'
          cases hg'
        refine Or.inr ⟨t', dr, ?_⟩
        rw [List.get?_set_ne _ _ (fun hc' => ht' hc'.symm)]
        exact hg'
    · have hi0 : i - s.trace.length = 0 := by
        have := lt_length_of_get?_some hi'
        simp only [List.length_singleton] at this
        omega
      rw [hi0] at hi'
      simp only [List.get?, Option.some.injEq] at hi'
      cases hi'
      exact Or.inr ⟨t, false, List.get?_set_eq_of_lt _ htlen⟩
  · intro hc
    dsimp only at hc ⊢
    apply gateProp_append_start (hInv.gate hc)
    intro i b fb hi
    rcases hInv.auxRel hc i b fb hi with ⟨k, hk1, hk3⟩ | ⟨t', dr, hg'⟩
    · exact ⟨k, hk1, hk3⟩
    · by_cases ht' : t' = t
      · rw [ht', hgt] at hg'
        cases hg'
      · have h2 := countP_two s.tasks Phase.isActive hgt hg'
          (fun hc' => ht' hc'.symm) (by simp [Phase.isActive]) (by simp [Phase.isActive])
        have h1 := hInv.oneActive hc
        omega

lemma inv_stepDrainOk {s s' : SState} {t : Nat} (hInv : Inv s)
    (h : stepDrainOk s t = some s') : Inv s' := by
  obtain ⟨a, rest, hgt, hq, hs'⟩ := stepDrainOk_eq h
  subst hs'
  have htlen : t < s.tasks.length := lt_length_of_get?_some hgt
  have ha_q : a ∈ s.queue := by rw [hq]; exact List.mem_cons_self a rest
  have hct_a : callTrace a s.trace = [] := (hInv.shape a).2.1 ha_q
  have ha_lt : a < s.nextId := inv_queue_lt hInv ha_q
  have ha_nrest : a ∉ rest := by
    have hnd := inv_queue_nodup hInv
    rw [hq] at hnd
    exact (List.nodup_cons.mp hnd).1
  have hnrun_a : ∀ t' ak dr, s.tasks.get? t' ≠ some (Phase.running a ak dr) := by
    intro t' ak dr hc
    obtain ⟨f, hf⟩ := (hInv.shape a).2.2.1 t' ak dr hc
    rw [hct_a] at hf
    cases hf
  have hvac : ∀ {C : Prop}, s.canceled = false → C := by
    intro C hc
    exact absurd rfl ((hInv.drainCanceled hc t Phase.draining hgt).1)
  refine ⟨?_, fun hc => hvac hc, fun hc => hvac hc, ?_, ?_, ?_, hInv.hookOnce,
    fun hc => hvac hc, fun hc => hvac hc⟩
  · show startedIds (s.trace ++ [Event.start a true]) ++ rest = List.range s.nextId
    rw [startedIds_append, startedIds_start, List.append_assoc,
      List.singleton_append, ← hq, hInv.conserv]
  · intro t1 t2 b ak dr ak' dr' hg1 hg2
    dsimp only at hg1 hg2
    rcases get?_set_cases hg1 with ⟨ht1, hx1⟩ | ⟨-, hold1⟩
    · cases hx1
      rcases get?_set_cases hg2 with ⟨ht2, -⟩ | ⟨-, hold2⟩
      · rw [ht1, ht2]
      · exact absurd hold2 (hnrun_a t2 ak' dr')
    · rcases get?_set_cases hg2 with ⟨-, hx2⟩ | ⟨-, hold2⟩
      · cases hx2
        exact absurd hold1 (hnrun_a t1 ak dr)
      · exact hInv.runUnique t1 t2 b ak dr ak' dr' hold1 hold2
  · intro b
    by_cases hba : b = a
    · subst hba
      refine ⟨?_, ?_, ?_, ?_⟩
      · intro hge
        dsimp only at hge
        omega
      · intro hqm
        dsimp only at hqm
        exact absurd hqm ha_nrest
      · intro t' ak dr hg'
        dsimp only at hg' ⊢
        rcases get?_set_cases hg' with ⟨-, hx⟩ | ⟨-, hold⟩
        · cases hx
          refine ⟨true, ?_⟩
          rw [callTrace_append, hct_a, callTrace_start_self]
          simp
        · exact absurd hold (hnrun_a t' ak dr)
      · intro hlt hnq hnr
        dsimp only at hnr
        exact absurd (List.get?_set_eq_of_lt (Phase.running b false true) htlen)
          (hnr t false true)
    · have hctb : callTrace b (s.trace ++ [Event.start a true]) =
          callTrace b s.trace := by
        rw [callTrace_append, callTrace_start_ne (fun hc => hba hc.symm),
          List.append_nil]
      refine ⟨?_, ?_, ?_, ?_⟩
      · intro hge
        dsimp only at hge ⊢
        rw [hctb]
        exact (hInv.shape b).1 hge
      · intro hqm
        dsimp only at hqm ⊢
        rw [hctb]
        exact (hInv.shape b).2.1 (by rw [hq]; exact List.mem_cons_of_mem a hqm)
      · intro t' ak dr hg'
        dsimp only at hg' ⊢
        rcases get?_set_cases hg' with ⟨-, hx⟩ | ⟨-, hold⟩
        · cases hx
          exact absurd rfl hba
        · rw [hctb]
          exact (hInv.shape b).2.2.1 t' ak dr hold
      · intro hlt hnq hnr
        dsimp only at hlt hnq hnr ⊢
        rw [hctb]
        apply (hInv.shape b).2.2.2 hlt
        · intro hc
          rw [hq] at hc
          rcases List.mem_cons.mp hc with hc | hc
          · exact hba hc
          · exact hnq hc
        · intro t' ak dr hold
          by_cases ht' : t' = t
          · subst ht'
            rw [hgt] at hold
            cases hold
          · exact hnr t' ak dr
              (by rw [List.get?_set_ne _ _ (fun hc => ht' hc.symm)]; exact hold)
  · show s.wg = rest.length +
      (s.tasks.set t (Phase.running a false true)).countP Phase.holdsCall
    have hcs := countP_set s.tasks t Phase.draining (Phase.running a false true)
      Phase.holdsCall hgt
    simp [Phase.holdsCall] at hcs
    have hw := hInv.wgCount
    rw [hq] at hw
    simp only [List.length_cons] at hw
    omega

lemma inv_stepBodyAck {s s' : SState} {t : Nat} (hInv : Inv s)
    (h : stepBodyAck s t = some s') : Inv s' := by
  obtain ⟨a, dr, hgt, hs'⟩ := stepBodyAck_eq h
  subst hs'
  have htlen : t < s.tasks.length := lt_length_of_get?_some hgt
  have htlen2 : t < (s.tasks.set t (Phase.running a true dr)).length := by
    rw [List.length_set]
    exact htlen
  obtain ⟨f0, hct_a⟩ := (hInv.shape a).2.2.1 t false dr hgt
  simp only [Bool.false_eq_true, if_false] at hct_a
  obtain ⟨ha_nq, ha_lt⟩ := inv_running_not_queued hInv hgt
  have hnew_t : ((s.tasks.set t (Phase.running a true dr)) ++ [Phase.atRecv]).get? t =
      some (Phase.running a true dr) := by
    rw [List.get?_append htlen2]
    exact List.get?_set_eq_of_lt _ htlen
  refine ⟨?_, ?_, ?_, ?_, ?_, ?_, hInv.hookOnce, ?_, ?_⟩
  · show startedIds (s.trace ++ [Event.acked a]) ++ s.queue = List.range s.nextId
    rw [startedIds_append, startedIds_acked, List.append_nil]
    exact hInv.conserv
  · intro hc t' ph hg'
    dsimp only at hc hg'
    rcases get?_append_singleton_cases hg' with ⟨hlt', hset⟩ | ⟨-, hx⟩
    · rcases get?_set_cases hset with ⟨-, hx⟩ | ⟨-, hold⟩
      · subst hx
        cases dr with
        | false => exact ⟨by simp, by intro b ak; simp⟩
        | true => exact absurd rfl ((hInv.drainCanceled hc t _ hgt).2 a false)
      · exact hInv.drainCanceled hc t' ph hold
    · subst hx
      exact ⟨by simp, by intro b ak; simp⟩
  · intro hc
    dsimp only at hc ⊢
    rw [List.countP_append]
    have hcs := countP_set s.tasks t (Phase.running a false dr)
      (Phase.running a true dr) Phase.isActive hgt
    simp [Phase.isActive] at hcs
    have hpos := countP_pos_of_get? s.tasks t (Phase.running a false dr)
      Phase.isActive hgt (by simp [Phase.isActive])
    have h1 := hInv.oneActive hc
    have h2 : List.countP Phase.isActive [Phase.atRecv] = 1 := rfl
    omega
  · intro t1 t2 b ak1 dr1 ak2 dr2 hg1 hg2
    dsimp only at hg1 hg2
    rcases get?_append_singleton_cases hg1 with ⟨hlt1, hset1⟩ | ⟨-, hx1⟩
    · rcases get?_append_singleton_cases hg2 with ⟨hlt2, hset2⟩ | ⟨-, hx2⟩
      · rcases get?_set_cases hset1 with ⟨ht1, hx1⟩ | ⟨hne1, hold1⟩
        · injection hx1 with hb1 hak1 hdr1
          subst hb1
          rcases get?_set_cases hset2 with ⟨ht2, -⟩ | ⟨hne2, hold2⟩
          · rw [ht1, ht2]
          · exact absurd (hInv.runUnique t2 t b ak2 dr2 false dr hold2 hgt) hne2
        · rcases get?_set_cases hset2 with ⟨ht2, hx2⟩ | ⟨-, hold2⟩
          · injection hx2 with hb2 hak2 hdr2
            subst hb2
            exact absurd (hInv.runUnique t1 t b ak1 dr1 false dr hold1 hgt) hne1
          · exact hInv.runUnique t1 t2 b ak1 dr1 ak2 dr2 hold1 hold2
      · cases hx2
    · cases hx1
  · intro b
    by_cases hba : b = a
    · subst hba
      refine ⟨?_, ?_, ?_, ?_⟩
      · intro hge
        dsimp only at hge
        omega
      · intro hqm
        dsimp only at hqm
        exact absurd hqm ha_nq
      · intro t' ak1 dr1 hg'
        dsimp only at hg' ⊢
        rcases get?_append_singleton_cases hg' with ⟨hlt', hset⟩ | ⟨-, hx⟩
        · rcases get?_set_cases hset with ⟨-, hx⟩ | ⟨hne', hold⟩
          · cases hx
            refine ⟨f0, ?_⟩
            rw [callTrace_append, callTrace_acked_self, hct_a]
            simp
          · exact absurd (hInv.runUnique t' t b ak1 dr1 false dr hold hgt) hne'
        · cases hx
      · intro hlt hnq hnr
        dsimp only at hnr
        exact absurd hnew_t (hnr t true dr)
    · have hctb : callTrace b (s.trace ++ [Event.acked a]) =
          callTrace b s.trace := by
        rw [callTrace_append, callTrace_acked_ne (fun hc => hba hc.symm),
          List.append_nil]
      refine ⟨?_, ?_, ?_, ?_⟩
      · intro hge
        dsimp only at hge ⊢
        rw [hctb]
        exact (hInv.shape b).1 hge
      · intro hqm
        dsimp only at hqm ⊢
        rw [hctb]
        exact (hInv.shape b).2.1 hqm
      · intro t' ak1 dr1 hg'
        dsimp only at hg' ⊢
        rcases get?_append_singleton_cases hg' with ⟨hlt', hset⟩ | ⟨-, hx⟩
        · rcases get?_set_cases hset with ⟨-, hx⟩ | ⟨-, hold⟩
          · cases hx
            exact absurd rfl hba
          · rw [hctb]
            exact (hInv.shape b).2.2.1 t' ak1 dr1 hold
        · cases hx
      · intro hlt hnq hnr
        dsimp only at hlt hnq hnr ⊢
        rw [hctb]
        apply (hInv.shape b).2.2.2 hlt hnq
        intro t' ak1 dr1 hold
        by_cases ht' : t' = t
        · subst ht'
          rw [hgt] at hold
          cases hold
          exact hba rfl
        · have hlt' : t' < s.tasks.length := lt_length_of_get?_some hold
          refine hnr t' ak1 dr1 ?_
          rw [List.get?_append (by rw [List.length_set]; exact hlt'),
            List.get?_set_ne _ _ (fun hc => ht' hc.symm)]
          exact hold
  · show s.wg = s.queue.length +
      ((s.tasks.set t (Phase.running a true dr)) ++ [Phase.atRecv]).countP
        Phase.holdsCall
    rw [List.countP_append]
    have hcs := countP_set s.tasks t (Phase.running a false dr)
      (Phase.running a true dr) Phase.holdsCall hgt
    simp [Phase.holdsCall] at hcs
    have hw := hInv.wgCount
    simp [Phase.holdsCall]
    omega
  · intro hc i b f hi
    dsimp only at hc hi ⊢
    rcases get?_append_some hi with ⟨hilen, hi'⟩ | ⟨hige, hi'⟩
    · rcases hInv.auxRel hc i b f hi' with ⟨k, hk1, hk3⟩ | ⟨t', dr', hg'⟩
      · exact Or.inl ⟨k, hk1, released_append _ _ _ _ hk3⟩
      · by_cases ht' : t' = t
        · subst ht'
          rw [hgt] at hg'
          have hba : b = a := by
            have h2 := Option.some.inj hg'
            injection h2 with h3 h4 h5
            exact h3.symm
          subst hba
          have hilen2 : i < s.trace.length := lt_length_of_get?_some hi'
          refine Or.inl ⟨s.trace.length + 0, by omega, ?_⟩
          exact released_at_end s.trace [Event.acked b] 0 b (Or.inl rfl)
        · have hlt' : t' < s.tasks.length := lt_length_of_get?_some hg'
          refine Or.inr ⟨t', dr', ?_⟩
          rw [List.get?_append (by rw [List.length_set]; exact hlt'),
            List.get?_set_ne _ _ (fun hc' => ht' hc'.symm)]
          exact hg'
    · have hi0 : i - s.trace.length = 0 := by
        have := lt_length_of_get?_some hi'
        simp only [List.length_singleton] at this
        omega
      rw [hi0] at hi'
      simp only [List.get?] at hi'
      cases hi'
  · intro hc
    dsimp only at hc ⊢
    exact gateProp_append_noStarts (hInv.gate hc) (noStarts_acked a)

lemma inv_stepBodyRet {s s' : SState} {t : Nat} {e : Option Err} (hInv : Inv s)
    (h : stepBodyRet s t e = some s') : Inv s' := by
  obtain ⟨a, ak, dr, hgt, hs'⟩ := stepBodyRet_eq h
  subst hs'
  have htlen : t < s.tasks.length := lt_length_of_get?_some hgt
  obtain ⟨f0, hct_a⟩ := (hInv.shape a).2.2.1 t ak dr hgt
  obtain ⟨ha_nq, ha_lt⟩ := inv_running_not_queued hInv hgt
  have hph' : ∀ b ak2 dr2,
      (if dr then Phase.draining else if ak then Phase.retired else Phase.atRecv) ≠
        Phase.running b ak2 dr2 := by
    intro b ak2 dr2
    cases dr <;> cases ak <;> simp
  refine ⟨?_, ?_, ?_, ?_, ?_, ?_, hInv.hookOnce, ?_, ?_⟩
  · show startedIds (s.trace ++ handleCallEvents a e) ++ s.queue = List.range s.nextId
    rw [startedIds_append, startedIds_handleCallEvents, List.append_nil]
    exact hInv.conserv
  · intro hc t' ph hg'
    dsimp only at hc hg'
    rcases get?_set_cases hg' with ⟨-, hx⟩ | ⟨-, hold⟩
    · subst hx
      have hdr : dr = false := by
        cases dr with
        | false => rfl
        | true => exact absurd rfl ((hInv.drainCanceled hc t _ hgt).2 a ak)
      subst hdr
      cases ak <;> exact ⟨by simp, by intro b ak2; simp⟩
    · exact hInv.drainCanceled hc t' ph hold
  · intro hc
    dsimp only at hc ⊢
    have hdr : dr = false := by
      cases dr with
      | false => rfl
      | true => exact absurd rfl ((hInv.drainCanceled hc t _ hgt).2 a ak)
    subst hdr
    have hcs := countP_set s.tasks t (Phase.running a ak false)
      (if ak then Phase.retired else Phase.atRecv) Phase.isActive hgt
    have h1 := hInv.oneActive hc
    cases ak with
    | false =>
      simp [Phase.isActive] at hcs
      simp only [Bool.false_eq_true, if_false]
      omega
    | true =>
      simp [Phase.isActive] at hcs
      show (s.tasks.set t Phase.retired).countP Phase.isActive = 1
      omega
  · intro t1 t2 b ak1 dr1 ak2 dr2 hg1 hg2
    dsimp only at hg1 hg2
    rcases get?_set_cases hg1 with ⟨-, hx1⟩ | ⟨-, hold1⟩
    · exact absurd hx1.symm (hph' b ak1 dr1)
    · rcases get?_set_cases hg2 with ⟨-, hx2⟩ | ⟨-, hold2⟩
      · exact absurd hx2.symm (hph' b ak2 dr2)
      · exact hInv.runUnique t1 t2 b ak1 dr1 ak2 dr2 hold1 hold2
  · intro b
    by_cases hba : b = a
    · subst hba
      refine ⟨?_, ?_, ?_, ?_⟩
      · intro hge
        exact absurd (show s.nextId ≤ b from hge) (by omega)
      · intro hqm
        dsimp only at hqm
        exact absurd hqm ha_nq
      · intro t' ak1 dr1 hg'
        dsimp only at hg'
        rcases get?_set_cases hg' with ⟨-, hx⟩ | ⟨hne', hold⟩
        · exact absurd hx.symm (hph' b ak1 dr1)
        · exact absurd (hInv.runUnique t' t b ak1 dr1 ak dr hold hgt) hne'
      · intro hlt hnq hnr
        refine ⟨f0, ak, e, ?_⟩
        rw [callTrace_append, callTrace_handleCallEvents_self, hct_a]
        rfl
    · have hctb : callTrace b (s.trace ++ handleCallEvents a e) =
          callTrace b s.trace := by
        rw [callTrace_append, callTrace_handleCallEvents_ne (fun hc => hba hc.symm),
          List.append_nil]
      refine ⟨?_, ?_, ?_, ?_⟩
      · intro hge
        dsimp only at hge ⊢
        rw [hctb]
        exact (hInv.shape b).1 hge
      · intro hqm
        dsimp only at hqm ⊢
        rw [hctb]
        exact (hInv.shape b).2.1 hqm
      · intro t' ak1 dr1 hg'
        dsimp only at hg' ⊢
        rcases get?_set_cases hg' with ⟨-, hx⟩ | ⟨-, hold⟩
        · exact absurd hx.symm (hph' b ak1 dr1)
        · rw [hctb]
          exact (hInv.shape b).2.2.1 t' ak1 dr1 hold
      · intro hlt hnq hnr
        dsimp only at hlt hnq hnr ⊢
        rw [hctb]
        apply (hInv.shape b).2.2.2 hlt hnq
        intro t' ak1 dr1 hold
        by_cases ht' : t' = t
        · subst ht'
          rw [hgt] at hold
          have hab : a = b := by
            have h2 := Option.some.inj hold
            injection h2 with h3 h4 h5
          exact hba hab.symm
        · exact hnr t' ak1 dr1
            (by rw [List.get?_set_ne _ _ (fun hc => ht' hc.symm)]; exact hold)
  · show s.wg - 1 = s.queue.length +
      (s.tasks.set t
        (if dr then Phase.draining else if ak then Phase.retired else Phase.atRecv)).countP
        Phase.holdsCall
    have hcs := countP_set s.tasks t (Phase.running a ak dr)
      (if dr then Phase.draining else if ak then Phase.retired else Phase.atRecv)
      Phase.holdsCall hgt
    have hpos := countP_pos_of_get? s.tasks t (Phase.running a ak dr)
      Phase.holdsCall hgt (by simp [Phase.holdsCall])
    have hw := hInv.wgCount
    have hzero : Phase.holdsCall
        (if dr then Phase.draining else if ak then Phase.retired else Phase.atRecv) =
        false := by
      cases dr <;> cases ak <;> rfl
    rw [hzero] at hcs
    simp [Phase.holdsCall] at hcs
    omega
  · intro hc i b f hi
    dsimp only at hc hi ⊢
    rcases get?_append_some hi with ⟨hilen, hi'⟩ | ⟨hige, hi'⟩
    · rcases hInv.auxRel hc i b f hi' with ⟨k, hk1, hk3⟩ | ⟨t', dr', hg'⟩
      · exact Or.inl ⟨k, hk1, released_append _ _ _ _ hk3⟩
      · by_cases ht' : t' = t
        · subst ht'
          rw [hgt] at hg'
          have hba : b = a := by
            have h2 := Option.some.inj hg'
            injection h2 with h3 h4 h5
            exact h3.symm
          subst hba
          refine Or.inl ⟨s.trace.length + 0, by omega, ?_⟩
          exact released_at_end s.trace (handleCallEvents b e) 0 b
            (Or.inr ⟨e, handleCallEvents_get0 b e⟩)
        · refine Or.inr ⟨t', dr', ?_⟩
          rw [List.get?_set_ne _ _ (fun hc' => ht' hc'.symm)]
          exact hg'
    · exact absurd hi' (fun hcon =>
        noStarts_def (handleCallEvents a e) (noStarts_handleCallEvents a e)
          _ b f hcon)
  · intro hc
    dsimp only at hc ⊢
    exact gateProp_append_noStarts (hInv.gate hc) (noStarts_handleCallEvents a e)

/-- Every transition of the dispatch system preserves the master invariant. -/
lemma inv_step {s s' : SState} {l : Label} (hInv : Inv s)
    (h : step s l = some s') : Inv s' := by
  cases l with
  | enqueue => exact inv_stepEnqueue hInv h
  | cancel => exact inv_stepCancel hInv h
  | finishShutdown => exact inv_stepFinishShutdown hInv h
  | recvOk t => exact inv_stepRecvOk hInv h
  | recvCancel t => exact inv_stepRecvCancel hInv h
  | bodyAck t => exact inv_stepBodyAck hInv h
  | bodyRet t e => exact inv_stepBodyRet hInv h
  | drainOk t => exact inv_stepDrainOk hInv h
  | drainDone t => exact inv_stepDrainDone hInv h

/-- The freshly constructed server satisfies the master invariant. -/
lemma inv_init (h w : Bool) (p : Nat) : Inv (initState h w p) := by
  refine ⟨rfl, ?_, fun _ => rfl, ?_, ?_, rfl, ?_, ?_, ?_⟩
  · intro hc t ph hg
    cases t with
    | zero =>
      cases hg
      exact ⟨by simp, by intro a ak; simp⟩
    | succ n => cases hg
  · intro t t' a ak dr ak' dr' hg1 hg2
    cases t with
    | zero => cases hg1
    | succ n => cases hg1
  · intro a
    refine ⟨fun _ => rfl, ?_, ?_, ?_⟩
    · intro hq
      cases hq
    · intro t ak dr hg
      cases t with
      | zero => cases hg
      | succ n => cases hg
    · intro hlt
      exact absurd (show a < 0 from hlt) (by omega)
  · simp [initState]
  · intro hc i a f hi
    cases hi
  · intro hc i j a b fa fb hij hi hj
    cases hi

/-- The invariant holds in every reachable state. -/
lemma inv_reaches {s0 s : SState} (hr : Reaches s0 s) (h0 : Inv s0) : Inv s := by
  induction hr with
  | refl => exact h0
  | tail l _ hstep ih => exact inv_step ih hstep

/-- Reachability composes. -/
lemma reaches_trans {s0 s1 s2 : SState} (h1 : Reaches s0 s1)
    (h2 : Reaches s1 s2) : Reaches s0 s2 := by
  induction h2 with
  | refl => exact h1
  | tail l _ hstep ih => exact Reaches.tail l ih hstep

/-- A successful `run` witnesses reachability. -/
lemma run_reaches {s s' : SState} {ls : List Label} (h : run s ls = some s') :
    Reaches s s' := by
  induction ls generalizing s with
  | nil =>
    unfold run at h
    cases h
    exact Reaches.refl _
  | cons l ls ih =>
    unfold run at h
    cases hst : step s l with
    | none => rw [hst] at h; cases h
    | some s1 =>
      rw [hst] at h
      exact reaches_trans (Reaches.tail l (Reaches.refl s) hst) (ih h)

/-- No transition changes `hasHook`. -/
lemma step_hasHook {s s' : SState} {l : Label} (h : step s l = some s') :
    s'.hasHook = s.hasHook := by
  cases l with
  | enqueue => obtain ⟨k, -, hs'⟩ := stepEnqueue_eq h; subst hs'; rfl
  | cancel => obtain ⟨-, -, hs'⟩ := stepCancel_eq h; subst hs'; rfl
  | finishShutdown => obtain ⟨-, -, -, hs'⟩ := stepFinishShutdown_eq h; subst hs'; rfl
  | recvOk t => obtain ⟨a, rest, -, -, hs'⟩ := stepRecvOk_eq h; subst hs'; rfl
  | recvCancel t => obtain ⟨-, -, hs'⟩ := stepRecvCancel_eq h; subst hs'; rfl
  | bodyAck t => obtain ⟨a, dr, -, hs'⟩ := stepBodyAck_eq h; subst hs'; rfl
  | bodyRet t e => obtain ⟨a, ak, dr, -, hs'⟩ := stepBodyRet_eq h; subst hs'; rfl
  | drainOk t => obtain ⟨a, rest, -, -, hs'⟩ := stepDrainOk_eq h; subst hs'; rfl
  | drainDone t => obtain ⟨-, -, hs'⟩ := stepDrainDone_eq h; subst hs'; rfl

/-- Once `Shutdown` has returned it stays returned. -/
lemma step_done_mono {s s' : SState} {l : Label} (h : step s l = some s')
    (hd : s.shutdownDone = true) : s'.shutdownDone = true := by
  cases l with
  | enqueue => obtain ⟨k, -, hs'⟩ := stepEnqueue_eq h; subst hs'; exact hd
  | cancel => obtain ⟨-, -, hs'⟩ := stepCancel_eq h; subst hs'; exact hd
  | finishShutdown => obtain ⟨-, -, -, hs'⟩ := stepFinishShutdown_eq h; subst hs'; rfl
  | recvOk t => obtain ⟨a, rest, -, -, hs'⟩ := stepRecvOk_eq h; subst hs'; exact hd
  | recvCancel t => obtain ⟨-, -, hs'⟩ := stepRecvCancel_eq h; subst hs'; exact hd
  | bodyAck t => obtain ⟨a, dr, -, hs'⟩ := stepBodyAck_eq h; subst hs'; exact hd
  | bodyRet t e => obtain ⟨a, ak, dr, -, hs'⟩ := stepBodyRet_eq h; subst hs'; exact hd
  | drainOk t => obtain ⟨a, rest, -, -, hs'⟩ := stepDrainOk_eq h; subst hs'; exact hd
  | drainDone t => obtain ⟨-, -, hs'⟩ := stepDrainDone_eq h; subst hs'; exact hd

/-! ## The completed-call characterization (backbone of C1, C3, C8, C9) -/

lemma bodyReturned_mem_fullSeq {a : Nat} {f da : Bool} {e e' : Option Err}
    (h : Event.bodyReturned a e ∈ fullSeq a f da e') : e = e' := by
  cases da <;> cases e' <;> simp [fullSeq, handleCallEvents] at h <;> exact h

/-- In any reachable state, a call whose body has returned error `e` has
the full per-call event sequence in the trace: start, optional ack, body
return, argument release, matching resolution and `Returner`
notification. -/
lemma completed_callTrace {h w : Bool} {p : Nat} {s : SState}
    (hr : Reaches (initState h w p) s) {a : Nat} {e : Option Err}
    (hm : Event.bodyReturned a e ∈ s.trace) :
    ∃ f da, callTrace a s.trace = fullSeq a f da e := by
  have hInv : Inv s := inv_reaches hr (inv_init h w p)
  have hmem_ct : Event.bodyReturned a e ∈ callTrace a s.trace := by
    unfold callTrace
    rw [List.mem_filter]
    exact ⟨hm, by simp [Event.id?]⟩
  by_cases h1 : s.nextId ≤ a
  · rw [(hInv.shape a).1 h1] at hmem_ct
    cases hmem_ct
  · by_cases h2 : a ∈ s.queue
    · rw [(hInv.shape a).2.1 h2] at hmem_ct
      cases hmem_ct
    · by_cases h3 : ∃ t ak dr, s.tasks.get? t = some (Phase.running a ak dr)
      · obtain ⟨t, ak, dr, hg⟩ := h3
        obtain ⟨f, hct⟩ := (hInv.shape a).2.2.1 t ak dr hg
        rw [hct] at hmem_ct
        cases ak <;> simp at hmem_ct
      · push_neg at h3
        obtain ⟨f, da, e', hct⟩ := (hInv.shape a).2.2.2 (by omega) h2 h3
        have he : e = e' := by
          rw [hct] at hmem_ct
          exact bodyReturned_mem_fullSeq hmem_ct
        subst he
        exact ⟨f, da, hct⟩

/-- Membership of a call's own events in the trace is membership in its
call trace. -/
lemma mem_callTrace_iff {a : Nat} {tr : List Event} {x : Event}
    (hx : x.id? = some a) : x ∈ callTrace a tr ↔ x ∈ tr := by
  unfold callTrace
  rw [List.mem_filter]
  constructor
  · intro h
    exact h.1
  · intro h
    exact ⟨h, by simp [hx]⟩

lemma count_callTrace {a : Nat} {tr : List Event} {x : Event}
    (hx : x.id? = some a) : tr.count x = (callTrace a tr).count x := by
  unfold callTrace
  rw [List.count_filter (by simp [hx])]

lemma fullSeq_count_returned (a : Nat) (f da : Bool) (e : Option Err) :
    (fullSeq a f da e).count (Event.returned a e) = 1 := by
  cases da <;> cases e <;>
    simp [fullSeq, handleCallEvents, List.count_cons, List.count_nil]

lemma fullSeq_count_releaseArgs (a : Nat) (f da : Bool) (e : Option Err) :
    (fullSeq a f da e).count (Event.releaseArgs a) = 1 := by
  cases da <;> cases e <;>
    simp [fullSeq, handleCallEvents, List.count_cons, List.count_nil]

lemma fullSeq_fulfill_iff (a : Nat) (f da : Bool) (e : Option Err) :
    Event.fulfill a ∈ fullSeq a f da e ↔ e = none := by
  cases da <;> cases e <;> simp [fullSeq, handleCallEvents]

lemma fullSeq_reject_iff (a : Nat) (f da : Bool) (e : Option Err) (er : Err) :
    Event.reject a er ∈ fullSeq a f da e ↔ e = some er := by
  cases da <;> cases e <;> simp [fullSeq, handleCallEvents] <;> exact eq_comm

lemma fullSeq_returned_iff (a : Nat) (f da : Bool) (e e' : Option Err) :
    Event.returned a e' ∈ fullSeq a f da e ↔ e' = e := by
  cases da <;> cases e <;> simp [fullSeq, handleCallEvents]

lemma fullSeq_mem_returned (a : Nat) (f da : Bool) (e : Option Err) :
    Event.returned a e ∈ fullSeq a f da e :=
  (fullSeq_returned_iff a f da e e).mpr rfl

/-- C3: after a dispatched call's method body returns with error `e`, the
call's AnswerQueue is fulfilled exactly when `e` is nil and otherwise
rejected with `e` itself, and the Returner's `Return` is invoked exactly
once with exactly the same `e` — the AnswerQueue and the Returner never
observe divergent outcomes, whether or not the body called `Ack`. -/
theorem outcome_agreement {h w : Bool} {p : Nat} {s : SState}
    (hr : Reaches (initState h w p) s) (a : Nat) (e : Option Err)
    (hret : Event.bodyReturned a e ∈ s.trace) :
    (∃ f da, callTrace a s.trace = fullSeq a f da e) ∧
    s.trace.count (Event.returned a e) = 1 ∧
    (e = none → Event.fulfill a ∈ s.trace ∧ ∀ er, Event.reject a er ∉ s.trace) ∧
    (∀ er, e = some er → Event.reject a er ∈ s.trace ∧ Event.fulfill a ∉ s.trace) ∧
    (∀ e', Event.returned a e' ∈ s.trace → e' = e) := by
  obtain ⟨f, da, hct⟩ := completed_callTrace hr hret
  refine ⟨⟨f, da, hct⟩, ?_, ?_, ?_, ?_⟩
  · rw [count_callTrace (show (Event.returned a e).id? = some a by simp [Event.id?]),
      hct, fullSeq_count_returned]
  · intro he
    subst he
    constructor
    · rw [← mem_callTrace_iff (show (Event.fulfill a).id? = some a by simp [Event.id?]),
        hct, fullSeq_fulfill_iff]
    · intro er hmem
      rw [← mem_callTrace_iff (show (Event.reject a er).id? = some a by simp [Event.id?]),
        hct, fullSeq_reject_iff] at hmem
      cases hmem
  · intro er he
    subst he
    constructor
    · rw [← mem_callTrace_iff (show (Event.reject a er).id? = some a by simp [Event.id?]),
        hct, fullSeq_reject_iff]
    · intro hmem
      rw [← mem_callTrace_iff (show (Event.fulfill a).id? = some a by simp [Event.id?]),
        hct, fullSeq_fulfill_iff] at hmem
      cases hmem
  · intro e' hmem
    rw [← mem_callTrace_iff (show (Event.returned a e').id? = some a by simp [Event.id?]),
      hct, fullSeq_returned_iff] at hmem
    exact hmem

/-- C9: for every dispatched call, the caller-supplied `ReleaseArgs` is
invoked exactly once, immediately after the method body returns and
before the AnswerQueue is fulfilled or rejected — independently of
whether the body called `Ack` (the optional ack block precedes the body
return, never interleaving with the release/resolution tail). -/
theorem releaseArgs_exactly_once {h w : Bool} {p : Nat} {s : SState}
    (hr : Reaches (initState h w p) s) (a : Nat) (e : Option Err)
    (hret : Event.bodyReturned a e ∈ s.trace) :
    s.trace.count (Event.releaseArgs a) = 1 ∧
    ∃ (f da : Bool), callTrace a s.trace =
      Event.start a f :: ((if da then [Event.acked a] else []) ++
        (Event.bodyReturned a e :: Event.releaseArgs a ::
          ((match e with
            | none => [Event.fulfill a]
            | some er => [Event.reject a er]) ++ [Event.returned a e]))) := by
  obtain ⟨f, da, hct⟩ := completed_callTrace hr hret
  constructor
  · rw [count_callTrace (show (Event.releaseArgs a).id? = some a by simp [Event.id?]),
      hct, fullSeq_count_releaseArgs]
  · refine ⟨f, da, ?_⟩
    rw [hct]
    cases e <;> rfl

/-! ## C2: FIFO dispatch with the returned-or-acked gate (steady state) -/

/-- C2 (amended): before lifetime cancellation, bodies are started in
exact enqueue (FIFO) order — the started identifiers followed by the
still-queued ones are precisely `0, 1, ..., nextId-1` in order — and a
call's body starts only after every earlier-enqueued call's body has
either returned or called `Ack` (the gate property).  After cancellation
FIFO start order still holds (it is the invariant `conserv`, proved for
all reachable states), but the gate can be violated by concurrent drain
workers, so the gate here is scoped to the steady phase. -/
theorem fifo_dispatch_order {h w : Bool} {p : Nat} {s : SState}
    (hr : Reaches (initState h w p) s) (hsteady : s.canceled = false) :
    startedIds s.trace ++ s.queue = List.range s.nextId ∧ GateProp s.trace :=
  have hInv : Inv s := inv_reaches hr (inv_init h w p)
  ⟨hInv.conserv, hInv.gate hsteady⟩

/-! ## C7: acknowledgment -/

/-- C7: `Call.Ack` is idempotent — the first invocation sets the acked
flag and spawns exactly one successor `handleCalls` goroutine (which
starts at `Recv`, freeing the queue for the next call), every subsequent
invocation changes nothing and spawns nothing — and in the steady phase
(before lifetime cancellation) the dispatch system always has exactly one
active consumer: the retiring iteration observes the acked flag and stops
consuming exactly when the spawned successor takes over. -/
theorem ack_idempotent_single_consumer :
    (∀ c : CallRec, c.acked = false →
      (CallRec.ack c).1.acked = true ∧ (CallRec.ack c).2 = 1) ∧
    (∀ c : CallRec, c.acked = true → CallRec.ack c = (c, 0)) ∧
    (∀ c : CallRec, CallRec.ack (CallRec.ack c).1 = ((CallRec.ack c).1, 0)) ∧
    (∀ (s s' : SState) (t : Nat), step s (Label.bodyAck t) = some s' →
      s'.tasks.length = s.tasks.length + 1 ∧
      s'.tasks.get? s.tasks.length = some Phase.atRecv) ∧
    (∀ (s s' : SState) (t : Nat) (e : Option Err) (a : Nat),
      s.tasks.get? t = some (Phase.running a true false) →
      step s (Label.bodyRet t e) = some s' →
      s'.tasks.get? t = some Phase.retired) ∧
    (∀ (h w : Bool) (p : Nat) (s : SState), Reaches (initState h w p) s →
      s.canceled = false → s.tasks.countP Phase.isActive = 1) := by
  refine ⟨?_, ?_, ?_, ?_, ?_, ?_⟩
  · intro c hc
    unfold CallRec.ack
    simp [hc]
  · intro c hc
    unfold CallRec.ack
    simp [hc]
  · intro c
    unfold CallRec.ack
    by_cases hc : c.acked = true <;> simp [hc]
  · intro s s' t hstep
    obtain ⟨a, dr, hgt, hs'⟩ := stepBodyAck_eq hstep
    subst hs'
    have htlen : t < s.tasks.length := lt_length_of_get?_some hgt
    constructor
    · show ((s.tasks.set t (Phase.running a true dr)) ++ [Phase.atRecv]).length =
        s.tasks.length + 1
      rw [List.length_append, List.length_set, List.length_singleton]
    · show ((s.tasks.set t (Phase.running a true dr)) ++ [Phase.atRecv]).get?
        s.tasks.length = some Phase.atRecv
      rw [List.get?_append_right (by rw [List.length_set]), List.length_set,
        Nat.sub_self]
      rfl
  · intro s s' t e a hg hstep
    obtain ⟨a2, ak2, dr2, hgt2, hs'⟩ := stepBodyRet_eq hstep
    rw [hg] at hgt2
    have h2 := Option.some.inj hgt2
    injection h2 with h3 h4 h5
    subst hs'
    dsimp only
    rw [← h4, ← h5]
    rw [List.get?_set_eq_of_lt _ (lt_length_of_get?_some hg)]
    rfl
  · intro h w p s hr hc
    exact (inv_reaches hr (inv_init h w p)).oneActive hc

/-! ## C8: shutdown -/

lemma reaches_hasHook {s0 s : SState} (hr : Reaches s0 s) :
    s.hasHook = s0.hasHook := by
  induction hr with
  | refl => rfl
  | tail l _ hstep ih => rw [step_hasHook hstep, ih]

lemma reaches_done_mono {s0 s : SState} (hr : Reaches s0 s)
    (hd : s0.shutdownDone = true) : s.shutdownDone = true := by
  induction hr with
  | refl => exact hd
  | tail l _ hstep ih => exact step_done_mono hstep ih

/-- C8: when `Shutdown` returns — the lifetime token has fired, `wg.Wait`
has seen the outstanding-call counter reach zero, and the hook has run —
every started call has been fully handled and its answer resolved, the
shutdown hook has been invoked exactly once (never again afterwards), and
with a nil `Shutdowner` no hook runs at all. -/
theorem shutdown_complete {h w : Bool} {p : Nat} {s s' : SState}
    (hr : Reaches (initState h w p) s)
    (hfin : step s Label.finishShutdown = some s') :
    s.canceled = true ∧ s.wg = 0 ∧
    (∀ a, a < s.nextId → ∃ (f da : Bool) (e : Option Err),
      callTrace a s.trace = fullSeq a f da e ∧ Event.returned a e ∈ s.trace) ∧
    s'.shutdownDone = true ∧
    s'.hookRuns = (if h then 1 else 0) ∧
    (∀ u, Reaches s' u → u.hookRuns = (if h then 1 else 0)) := by
  have hInv : Inv s := inv_reaches hr (inv_init h w p)
  obtain ⟨hcanc, hwg, hdone, hs'⟩ := stepFinishShutdown_eq hfin
  have hqnil : s.queue = [] := by
    have hw2 := hInv.wgCount
    rw [hwg] at hw2
    cases hq : s.queue with
    | nil => rfl
    | cons x xs =>
      rw [hq] at hw2
      simp only [List.length_cons] at hw2
      exact absurd hw2 (by omega)
  have hnorun : ∀ t ak dr a, s.tasks.get? t ≠ some (Phase.running a ak dr) := by
    intro t ak dr a hg
    have hpos := countP_pos_of_get? s.tasks t (Phase.running a ak dr)
      Phase.holdsCall hg (by simp [Phase.holdsCall])
    have hw2 := hInv.wgCount
    omega
  have hall : ∀ a, a < s.nextId → ∃ (f da : Bool) (e : Option Err),
      callTrace a s.trace = fullSeq a f da e ∧ Event.returned a e ∈ s.trace := by
    intro a hlt
    obtain ⟨f, da, e, hct⟩ := (hInv.shape a).2.2.2 hlt (by rw [hqnil]; simp)
      (fun t ak dr => hnorun t ak dr a)
    refine ⟨f, da, e, hct, ?_⟩
    rw [← mem_callTrace_iff (show (Event.returned a e).id? = some a by simp [Event.id?]),
      hct]
    exact fullSeq_mem_returned a f da e
  have hhook : s.hasHook = h := reaches_hasHook hr
  have hhook0 : s.hookRuns = 0 := by
    have h0 := hInv.hookOnce
    rw [hdone] at h0
    simpa using h0
  refine ⟨hcanc, hwg, hall, ?_, ?_, ?_⟩
  · rw [hs']
  · rw [hs']
    show s.hookRuns + (if s.hasHook then 1 else 0) = if h then 1 else 0
    rw [hhook0, hhook]
    omega
  · intro u hu
    have hInvu : Inv u := inv_reaches hu (inv_step hInv hfin)
    have hdu : u.shutdownDone = true := reaches_done_mono hu (by rw [hs'])
    have hhu : u.hasHook = h := by
      rw [reaches_hasHook hu, hs']
      exact hhook
    have h0 := hInvu.hookOnce
    rw [hdu, hhu] at h0
    simpa using h0

/-! ## C1: every enqueued call is eventually handled (amended) -/

/-- C1 (amended): in every complete execution (a terminal state, where no
code of the system can make further progress) in which the dispatch loop
has not already exited — i.e. some `handleCalls` goroutine is not retired
— the queue has been fully drained and every enqueued call has been
dispatched and completely handled: its body was run, its arguments
released, its AnswerQueue resolved and its Returner notified.  (The
amendment: a call enqueued after the drain loop has already observed an
empty queue and returned is never dequeued; see the counterexample.) -/
theorem enqueued_eventually_handled {h w : Bool} {p : Nat} {s : SState}
    (hr : Reaches (initState h w p) s) (hterm : Terminal s)
    (halive : ∃ t ph, s.tasks.get? t = some ph ∧ ph ≠ Phase.retired) :
    s.queue = [] ∧
    ∀ a, a < s.nextId → ∃ (f da : Bool) (e : Option Err),
      callTrace a s.trace = fullSeq a f da e ∧ Event.returned a e ∈ s.trace := by
  have hInv : Inv s := inv_reaches hr (inv_init h w p)
  have hnorun : ∀ t ak dr a, s.tasks.get? t ≠ some (Phase.running a ak dr) := by
    intro t ak dr a hg
    have hst : stepBodyRet s t none = none := hterm (Label.bodyRet t none)
    unfold stepBodyRet at hst
    rw [hg] at hst
    cases hst
  have hnodrain : ∀ t, s.tasks.get? t ≠ some Phase.draining := by
    intro t hg
    cases hq : s.queue with
    | nil =>
      have hst : stepDrainDone s t = none := hterm (Label.drainDone t)
      unfold stepDrainDone at hst
      rw [hg, hq] at hst
      cases hst
    | cons x xs =>
      have hst : stepDrainOk s t = none := hterm (Label.drainOk t)
      unfold stepDrainOk at hst
      rw [hg, hq] at hst
      cases hst
  obtain ⟨t, ph, hg, hph⟩ := halive
  have hqnil : s.queue = [] := by
    cases ph with
    | atRecv =>
      cases hq : s.queue with
      | nil => rfl
      | cons x xs =>
        have hst : stepRecvOk s t = none := hterm (Label.recvOk t)
        unfold stepRecvOk at hst
        rw [hg, hq] at hst
        cases hst
    | draining => exact absurd hg (hnodrain t)
    | running a ak dr => exact absurd hg (hnorun t ak dr a)
    | retired => exact absurd rfl hph
  refine ⟨hqnil, ?_⟩
  intro a hlt
  obtain ⟨f, da, e, hct⟩ := (hInv.shape a).2.2.2 hlt (by rw [hqnil]; simp)
    (fun t' ak dr => hnorun t' ak dr a)
  refine ⟨f, da, e, hct, ?_⟩
  rw [← mem_callTrace_iff (show (Event.returned a e).id? = some a by simp [Event.id?]),
    hct]
  exact fullSeq_mem_returned a f da e

/-- A state whose goroutines have all retired, with no pending producers,
a canceled context and a nonzero counter, is terminal: nothing can run. -/
lemma terminal_of_all_retired {s : SState}
    (h1 : ∀ t ph, s.tasks.get? t = some ph → ph = Phase.retired)
    (h2 : s.pending = 0) (h3 : s.canceled = true) (h4 : s.wg ≠ 0) :
    Terminal s := by
  intro l
  cases l with
  | enqueue =>
    show stepEnqueue s = none
    unfold stepEnqueue
    rw [h2]
  | cancel =>
    show stepCancel s = none
    unfold stepCancel
    simp [h3]
  | finishShutdown =>
    show stepFinishShutdown s = none
    unfold stepFinishShutdown
    simp [h4]
  | recvOk t =>
    show stepRecvOk s t = none
    unfold stepRecvOk
    cases hg : s.tasks.get? t with
    | none => rfl
    | some ph => rw [h1 t ph hg]
  | recvCancel t =>
    show stepRecvCancel s t = none
    unfold stepRecvCancel
    cases hg : s.tasks.get? t with
    | none => rfl
    | some ph => rw [h1 t ph hg]
  | bodyAck t =>
    show stepBodyAck s t = none
    unfold stepBodyAck
    cases hg : s.tasks.get? t with
    | none => rfl
    | some ph => rw [h1 t ph hg]
  | bodyRet t e =>
    show stepBodyRet s t e = none
    unfold stepBodyRet
    cases hg : s.tasks.get? t with
    | none => rfl
    | some ph => rw [h1 t ph hg]
  | drainOk t =>
    show stepDrainOk s t = none
    unfold stepDrainOk
    cases hg : s.tasks.get? t with
    | none => rfl
    | some ph => rw [h1 t ph hg]
  | drainDone t =>
    show stepDrainDone s t = none
    unfold stepDrainDone
    cases hg : s.tasks.get? t with
    | none => rfl
    | some ph => rw [h1 t ph hg]

/-- A quiescent steady state — consumers at `Recv` (or retired), no
pending producers, empty queue, `Shutdown` never invoked — is terminal. -/
lemma terminal_idle {s : SState}
    (h1 : ∀ t ph, s.tasks.get? t = some ph →
      ph = Phase.atRecv ∨ ph = Phase.retired)
    (h2 : s.pending = 0) (h3 : s.queue = []) (h4 : s.wantShutdown = false)
    (h5 : s.canceled = false) : Terminal s := by
  intro l
  cases l with
  | enqueue =>
    show stepEnqueue s = none
    unfold stepEnqueue
    rw [h2]
  | cancel =>
    show stepCancel s = none
    unfold stepCancel
    simp [h4]
  | finishShutdown =>
    show stepFinishShutdown s = none
    unfold stepFinishShutdown
    simp [h5]
  | recvOk t =>
    show stepRecvOk s t = none
    unfold stepRecvOk
    cases hg : s.tasks.get? t with
    | none => rfl
    | some ph =>
      rcases h1 t ph hg with hph | hph
      · rw [hph, h3]
      · rw [hph]
  | recvCancel t =>
    show stepRecvCancel s t = none
    unfold stepRecvCancel
    cases hg : s.tasks.get? t with
    | none => rfl
    | some ph =>
      rcases h1 t ph hg with hph | hph
      · rw [hph]
        simp [h5]
      · rw [hph]
  | bodyAck t =>
    show stepBodyAck s t = none
    unfold stepBodyAck
    cases hg : s.tasks.get? t with
    | none => rfl
    | some ph =>
      rcases h1 t ph hg with hph | hph <;> rw [hph]
  | bodyRet t e =>
    show stepBodyRet s t e = none
    unfold stepBodyRet
    cases hg : s.tasks.get? t with
    | none => rfl
    | some ph =>
      rcases h1 t ph hg with hph | hph <;> rw [hph]
  | drainOk t =>
    show stepDrainOk s t = none
    unfold stepDrainOk
    cases hg : s.tasks.get? t with
    | none => rfl
    | some ph =>
      rcases h1 t ph hg with hph | hph <;> rw [hph]
  | drainDone t =>
    show stepDrainDone s t = none
    unfold stepDrainDone
    cases hg : s.tasks.get? t with
    | none => rfl
    | some ph =>
      rcases h1 t ph hg with hph | hph <;> rw [hph]

/-- C1 counterexample: the claim as stated (every successfully enqueued
call is eventually run) is false.  Under the schedule `c1CexLabels` the
lifetime context is canceled, the only `handleCalls` goroutine drains the
(empty) queue and returns, and then a producer's `start` completes its
enqueue.  The resulting state is terminal — no code of the system can run
again — yet call 0 was enqueued (`nextId = 1`, still sitting in the
queue) and its body was never started, its AnswerQueue never resolved:
the call is silently dropped (and `Shutdown`'s `wg.Wait` would block
forever, as `wg = 1`). -/
theorem enqueued_dropped_counterexample :
    run (initState false true 1) c1CexLabels = some c1CexS ∧
    Terminal c1CexS ∧
    c1CexS.nextId = 1 ∧ c1CexS.queue = [0] ∧
    startedIds c1CexS.trace = [] ∧ callTrace 0 c1CexS.trace = [] ∧
    c1CexS.wg = 1 := by
  refine ⟨rfl, ?_, rfl, rfl, rfl, rfl, rfl⟩
  apply terminal_of_all_retired
  · intro t ph hg
    have htasks : c1CexS.tasks = [Phase.retired] := rfl
    rw [htasks] at hg
    cases t with
    | zero => exact (Option.some.inj hg).symm
    | succ n => cases hg
  · rfl
  · rfl
  · decide

/-- Witness for C1 (amended) at a concrete run: one enqueued call, a
terminal state with a live consumer, and the call fully handled. -/
theorem enqueued_eventually_handled_witness :
    c1WitS.queue = [] ∧
    ∃ (f da : Bool) (e : Option Err),
      callTrace 0 c1WitS.trace = fullSeq 0 f da e ∧
        Event.returned 0 e ∈ c1WitS.trace := by
  have hterm : Terminal c1WitS := by
    apply terminal_idle
    · intro t ph hg
      have htasks : c1WitS.tasks = [Phase.atRecv] := rfl
      rw [htasks] at hg
      cases t with
      | zero => exact Or.inl (Option.some.inj hg).symm
      | succ n => cases hg
    · rfl
    · rfl
    · rfl
    · rfl
  have hth := enqueued_eventually_handled
    (run_reaches (show run (initState false false 1) c1WitLabels = some c1WitS from rfl))
    hterm ⟨0, Phase.atRecv, rfl, by simp⟩
  exact ⟨hth.1, hth.2 0 (by decide)⟩

/-- C2 counterexample: the claim as stated is false.  Under the schedule
`c2CexLabels` — post-cancellation drain in which call 0's body calls
`Ack`, spawning a second drain worker — call 2's body is started while
call 1's body has neither returned nor acknowledged, violating the
returned-or-acked gate (FIFO start order itself still holds). -/
theorem dispatch_gate_counterexample :
    run (initState false true 3) c2CexLabels = some c2CexS ∧
    startedIds c2CexS.trace ++ c2CexS.queue = List.range c2CexS.nextId ∧
    ¬ GateProp c2CexS.trace := by
  refine ⟨rfl, rfl, ?_⟩
  intro hgate
  obtain ⟨k, hk1, hk2, hk3⟩ := hgate 2 7 1 2 true true (by omega) rfl rfl
  have hno : ∀ k, k < 7 → 2 < k → ¬ ReleasedAt c2CexS.trace k 1 := by decide
  exact hno k hk2 hk1 hk3

/-- Witness for C2 (amended) at a concrete steady-state run of two
calls. -/
theorem fifo_dispatch_order_witness :
    startedIds c2WitS.trace ++ c2WitS.queue = List.range c2WitS.nextId ∧
      GateProp c2WitS.trace :=
  fifo_dispatch_order
    (run_reaches (show run (initState false false 2) c2WitLabels = some c2WitS from rfl))
    rfl

/-- Witness for C3 at a concrete run whose body fails: the answer queue
is rejected with the body's error, never fulfilled, and the Returner is
notified exactly once with the same error. -/
theorem outcome_agreement_witness :
    c3WitS.trace.count (Event.returned 0 (some (newError "boom"))) = 1 ∧
    Event.reject 0 (newError "boom") ∈ c3WitS.trace ∧
    Event.fulfill 0 ∉ c3WitS.trace := by
  have hth := outcome_agreement
    (run_reaches (show run (initState false false 1) c3WitLabels = some c3WitS from rfl))
    0 (some (newError "boom")) (by decide)
  exact ⟨hth.2.1, (hth.2.2.2.1 (newError "boom") rfl).1,
    (hth.2.2.2.1 (newError "boom") rfl).2⟩

/-- Witness for C7 at a concrete call record and the freshly built
server. -/
theorem ack_idempotent_single_consumer_witness :
    (CallRec.ack ⟨false, ⟨0⟩, false⟩).1.acked = true ∧
    (CallRec.ack ⟨false, ⟨0⟩, false⟩).2 = 1 ∧
    CallRec.ack (CallRec.ack ⟨false, ⟨0⟩, false⟩).1 =
      ((CallRec.ack ⟨false, ⟨0⟩, false⟩).1, 0) ∧
    (initState true true 1).tasks.countP Phase.isActive = 1 := by
  obtain ⟨w1, -, w3, -, -, w5⟩ := ack_idempotent_single_consumer
  exact ⟨(w1 ⟨false, ⟨0⟩, false⟩ rfl).1, (w1 ⟨false, ⟨0⟩, false⟩ rfl).2,
    w3 ⟨false, ⟨0⟩, false⟩, w5 true true 1 (initState true true 1)
      (Reaches.refl _) rfl⟩

/-- Witness for C8 at a concrete run: one completed call, then
`Shutdown` cancels and completes, running the hook exactly once. -/
theorem shutdown_complete_witness :
    c8WitS.canceled = true ∧ c8WitS.wg = 0 ∧ c8WitSf.shutdownDone = true ∧
    c8WitSf.hookRuns = 1 := by
  have hth := shutdown_complete
    (run_reaches (show run (initState true true 1) c8WitLabels = some c8WitS from rfl))
    (show step c8WitS Label.finishShutdown = some c8WitSf from rfl)
  refine ⟨hth.1, hth.2.1, hth.2.2.2.1, ?_⟩
  have hrw := hth.2.2.2.2.1
  simpa using hrw

/-- Witness for C9 at a concrete run with acknowledgment: arguments are
released exactly once, right after the body returns and before the
fulfillment. -/
theorem releaseArgs_exactly_once_witness :
    c9WitS.trace.count (Event.releaseArgs 0) = 1 ∧
    ∃ (f da : Bool), callTrace 0 c9WitS.trace =
      Event.start 0 f :: ((if da then [Event.acked 0] else []) ++
        (Event.bodyReturned 0 none :: Event.releaseArgs 0 ::
          (Event.fulfill 0 :: [Event.returned 0 none]))) :=
  releaseArgs_exactly_once
    (run_reaches (show run (initState false false 1) c9WitLabels = some c9WitS from rfl))
    0 none (by decide)

end GoCapnpServer
